import Mathlib

/-!
Verification of the schema/record flattening core of a Singer target for a
SQL warehouse (`target_snowflake/utils/singer_target_utils.py`).

The Python module is embedded shallowly:

* JSON values (records, schemas, descriptors) become the inductive `JValue`;
  Python `dict`s are association lists in insertion order, and `dict(pairs)`
  (first-occurrence order, last value wins) is `pyDict`.
* Python exceptions become the error type `PyErr` via `Except`.
* The regular-expression substitutions used by `inflect_column_name` and by
  the `inflection` library's `underscore`/`camelize` are implemented as
  character-list scanners with the exact leftmost, non-overlapping match
  semantics of `re.sub` for those fixed patterns.
* `flatten_schema` mutates property descriptors in place (the `anyOf`
  branch); the embedding `flatten_schemaS` therefore returns the post-state
  of its input schema next to the flattened mapping.
-/

/-- JSON-like values: the data both records and schemas are made of.
Python dicts are modelled as association lists in insertion order. -/
inductive JValue where
  | null
  | bool (b : Bool)
  | num (n : Int)
  | str (s : String)
  | list (xs : List JValue)
  | obj (fields : List (String × JValue))

/-- Python truthiness (`if not v`) for JSON values. -/
def pyFalsy : JValue → Bool
  | .null => true
  | .bool b => !b
  | .num n => n == 0
  | .str s => s == ""
  | .list xs => xs.isEmpty
  | .obj fs => fs.isEmpty

/-- Python exceptions raised by the module (plus the `ValueError` carrying
the duplicated column name). -/
inductive PyErr where
  | keyError
  | typeError
  | attributeError
  | indexError
  | nameError
  | valueErrorDup (col : String)

/-- First binding of a key in a Python dict (keys are unique in real dicts;
on general association lists this is the first occurrence). -/
def lookupObj : List (String × JValue) → String → Option JValue
  | [], _ => none
  | (k, v) :: rest, key => if k = key then some v else lookupObj rest key

/-- Python dict assignment `d[k] = v`: replace the first binding of `k`,
or append a new binding at the end. -/
def updateAssoc : List (String × JValue) → String → JValue → List (String × JValue)
  | [], key, v => [(key, v)]
  | (k, w) :: rest, key, v =>
    if k = key then (k, v) :: rest else (k, w) :: updateAssoc rest key v

/-- `dict(pairs)`: insertion-ordered dict built from a pair list; the key
order is first occurrence, the value is the last one assigned. -/
def pyDict (l : List (String × JValue)) : List (String × JValue) :=
  l.foldl (fun acc p => updateAssoc acc p.1 p.2) []

/-- `v[key]` for a string key: dict lookup (`KeyError` when absent),
`TypeError` on every non-dict value. -/
def pyIndexStr : JValue → String → Except PyErr JValue
  | .obj fs, key =>
    match lookupObj fs key with
    | some v => .ok v
    | none => .error .keyError
  | _, _ => .error .typeError

/-- `v[0]`: list indexing (`IndexError` when empty), a one-character string
for strings, `KeyError` for dicts (their keys are strings, never `0`),
`TypeError` otherwise. -/
def pyIndexZero : JValue → Except PyErr JValue
  | .list [] => .error .indexError
  | .list (x :: _) => .ok x
  | .str s =>
    match s.data with
    | [] => .error .indexError
    | c :: _ => .ok (.str (String.mk [c]))
  | .obj _ => .error .keyError
  | _ => .error .typeError

/-- `v == s` for a string literal `s` (Python `==`: true only on equal
strings). -/
def isStrEq (v : JValue) (s : String) : Bool :=
  match v with
  | .str t => t == s
  | _ => false

/-- Is `needle` a prefix of `hay`? -/
def listPrefix : List Char → List Char → Bool
  | [], _ => true
  | _ :: _, [] => false
  | a :: as, b :: bs => a == b && listPrefix as bs

/-- Python substring test `needle in hay`. -/
def strSub (needle : List Char) : List Char → Bool
  | [] => needle.isEmpty
  | c :: rest => listPrefix needle (c :: rest) || strSub needle rest

/-- Python `needle in v` for a string needle: substring test on strings,
element equality on lists, key membership on dicts, `TypeError` on
numbers, booleans and `None`. -/
def pyContains (needle : String) : JValue → Except PyErr Bool
  | .str s => .ok (strSub needle.data s.data)
  | .list xs => .ok (xs.any (fun x => isStrEq x needle))
  | .obj fs => .ok (fs.any (fun p => p.1 == needle))
  | _ => .error .typeError

/-! ### Character classes and the regex substitutions of `inflect_column_name`

`inflect_column_name` applies, in order:
1. `re.sub(r"([A-Z]+)_([A-Z][a-z])", r"\1__\2", name)`
2. `re.sub(r"([a-z\d])_([A-Z])", r"\1__\2", name)`
3. `inflection.underscore`, which is
   `re.sub(r"([A-Z]+)([A-Z][a-z])", r"\1_\2", ...)` then
   `re.sub(r"([a-z\d])([A-Z])", r"\1_\2", ...)` then
   `.replace("-", "_").lower()`.

Each substitution is realised as a left-to-right scanner over the character
list with the non-overlapping leftmost-match behaviour of `re.sub`:
a failed attempt advances one character, a successful match consumes the
matched characters and emits the replacement.  For patterns starting with
`([A-Z]+)` a match at a position exists exactly when the maximal uppercase
run there fits the rest of the pattern (greedy + backtracking collapses to
the maximal run), which the scanners below track with a pending-run
accumulator.
-/

def isUp (c : Char) : Bool := decide ('A' ≤ c) && decide (c ≤ 'Z')

def isLow (c : Char) : Bool := decide ('a' ≤ c) && decide (c ≤ 'z')

def isDigitCh (c : Char) : Bool := decide ('0' ≤ c) && decide (c ≤ '9')

def isLowDig (c : Char) : Bool := isLow c || isDigitCh c

/-- Scanner for `re.sub(r"([A-Z]+)_([A-Z][a-z])", r"\1__\2", _)`:
`pending` is the uppercase run read so far. -/
def pre1Go (pending : List Char) : List Char → List Char
  | [] => pending
  | '_' :: u :: l2 :: rest2 =>
    if pending ≠ [] && isUp u && isLow l2 then
      pending ++ ['_', '_', u, l2] ++ pre1Go [] rest2
    else pending ++ ['_'] ++ pre1Go [] (u :: l2 :: rest2)
  | c :: rest =>
    if isUp c then pre1Go (pending ++ [c]) rest
    else pending ++ [c] ++ pre1Go [] rest

/-- Scanner for `re.sub(r"([a-z\d])_([A-Z])", r"\1__\2", _)`. -/
def pre2Go : List Char → List Char
  | x :: '_' :: y :: rest =>
    if isLowDig x && isUp y then x :: '_' :: '_' :: y :: pre2Go rest
    else x :: pre2Go ('_' :: y :: rest)
  | c :: rest => c :: pre2Go rest
  | [] => []

/-- Scanner for `re.sub(r"([A-Z]+)([A-Z][a-z])", r"\1_\2", _)` (first step
of `inflection.underscore`): on an uppercase run of length `m ≥ 2` followed
by a lowercase letter, an underscore is inserted before the run's last
uppercase letter. -/
def und1Go (pending : List Char) : List Char → List Char
  | [] => pending
  | c :: rest =>
    if isUp c then und1Go (pending ++ [c]) rest
    else
      if isLow c && 2 ≤ pending.length then
        pending.dropLast ++ ['_'] ++ pending.drop (pending.length - 1) ++ [c] ++ und1Go [] rest
      else pending ++ [c] ++ und1Go [] rest

/-- Scanner for `re.sub(r"([a-z\d])([A-Z])", r"\1_\2", _)` (second step of
`inflection.underscore`). -/
def und2Go : List Char → List Char
  | x :: y :: rest =>
    if isLowDig x && isUp y then x :: '_' :: y :: und2Go rest
    else x :: und2Go (y :: rest)
  | s => s

/-- `inflection.underscore`: the two camel-case splits, then
`.replace("-", "_")` and `.lower()`. -/
def pyUnderscore (s : List Char) : List Char :=
  (und2Go (und1Go [] s)).map (fun c => (if c = '-' then '_' else c).toLower)

/-- `inflect_column_name` from the source: double underscores that already
sit at case boundaries, then `inflection.underscore`. -/
def inflect_column_name (s : String) : String :=
  String.mk (pyUnderscore (pre2Go (pre1Go [] s.data)))

/-! ### `flatten_key` -/

/-- Tail of `inflection.camelize`: `re.sub(r"(?:^|_)(.)", upper, _)` after
the first character; an underscore followed by a character is replaced by
that character uppercased. -/
def camelAux : List Char → List Char
  | '_' :: c :: rest => c.toUpper :: camelAux rest
  | c :: rest => c :: camelAux rest
  | [] => []

/-- `inflection.camelize` with `uppercase_first_letter=True`: the match at
`^` uppercases the first character (whatever it is), then each `_x` becomes
`X`. -/
def camelizeL : List Char → List Char
  | [] => []
  | c :: rest => c.toUpper :: camelAux rest

/-- One abbreviation step of `flatten_key`'s reduction loop applied to a
segment: strip lowercase letters from the camelized segment; if at most one
character survives fall back to the segment's first three characters; then
lowercase. -/
def abbrevSeg (s : String) : String :=
  let reduced := (camelizeL s.data).filter (fun c => !isLow c)
  String.mk ((if 1 < reduced.length then reduced else s.data.take 3).map Char.toLower)

/-- The `while` loop of `flatten_key`: abbreviate segments left to right
while the joined name is at least 63 characters long and segments remain.
`done` are the already-visited segments, `todo` the rest. -/
def abbrevLoop (sep : String) (done todo : List String) : List String :=
  match todo with
  | [] => done
  | seg :: rest =>
    if 63 ≤ (String.intercalate sep (done ++ seg :: rest)).length then
      abbrevLoop sep (done ++ [abbrevSeg seg]) rest
    else done ++ seg :: rest

/-- `flatten_key` from the source: inflect every segment of
`parent_key + [k]`, run the abbreviation loop, join with `sep`. -/
def flatten_key (k : String) (parent_key : List String) (sep : String) : String :=
  String.intercalate sep (abbrevLoop sep [] ((parent_key ++ [k]).map inflect_column_name))

example : inflect_column_name "HTTPStatus" = "http_status" := by decide
example : inflect_column_name "HTTP_Status" = "http__status" := by decide
example : inflect_column_name "aBCd" = "a_b_cd" := by decide
example : inflect_column_name "A_B_Cd" = "a_b__cd" := by decide
example : inflect_column_name "AB_CD_Ef" = "ab_cd__ef" := by decide
example : inflect_column_name "a_B_C" = "a__b_c" := by decide
example : inflect_column_name "foo__bar" = "foo__bar" := by decide
example : inflect_column_name "area51Zone" = "area51_zone" := by decide
example : inflect_column_name "weather_Info" = "weather__info" := by decide
example : inflect_column_name "aB_" = "a_b_" := by decide
example : inflect_column_name "HTTPStatusCode" = "http_status_code" := by decide
example : camelizeL "foo__bar".data = "Foo_bar".data := by decide
example : camelizeL "__x".data = "_X".data := by decide
example : camelizeL "_ab".data = "_ab".data := by decide
example : flatten_key "weather" ["info"] "__" = "info__weather" := by decide

/-! ### The record flattener `flatten` -/

/-- Python `str`/`repr` of a JSON value as it appears when `flatten`
serializes a list value (`repr` of the decoded JSON data: ints in decimal,
strings in single quotes, `True`/`False`/`None`, lists and dicts
recursively).  Escaping inside string contents is not modelled. -/
def pyRepr : JValue → String
  | .null => "None"
  | .bool true => "True"
  | .bool false => "False"
  | .num n => toString n
  | .str s => String.mk [Char.ofNat 39] ++ s ++ String.mk [Char.ofNat 39]
  | .list xs => "[" ++ String.intercalate ", " (xs.attach.map (fun x => pyRepr x.1)) ++ "]"
  | .obj fs =>
    "\x7b" ++
      String.intercalate ", "
        (fs.attach.map (fun p =>
          String.mk [Char.ofNat 39] ++ p.1.1 ++ String.mk [Char.ofNat 39] ++ ": " ++ pyRepr p.1.2)) ++
    "\x7d"
termination_by v => sizeOf v
decreasing_by
  · have := List.sizeOf_lt_of_mem x.2
    simp only [JValue.list.sizeOf_spec]
    omega
  · obtain ⟨⟨a, b⟩, hp⟩ := p
    have h1 := List.sizeOf_lt_of_mem hp
    simp only [JValue.obj.sizeOf_spec, Prod.mk.sizeOf_spec] at h1 ⊢
    omega

/-- The loop body of `flatten` collecting `items`: for each pair the flat
key is `parent_key + sep + k` when `parent_key` is truthy (non-empty), else
`k`; nested mappings are flattened recursively (the inner call returns a
dict, hence the inner `pyDict`), list values are stored as their string
serialization, everything else as-is. -/
def flattenItems : List (String × JValue) → String → String → List (String × JValue)
  | [], _, _ => []
  | (k, v) :: rest, parent, sep =>
    (let new_key := if parent = "" then k else parent ++ sep ++ k
     match v with
     | .obj fields => pyDict (flattenItems fields new_key sep)
     | .list xs => [(new_key, .str (pyRepr (.list xs)))]
     | w => [(new_key, w)]) ++ flattenItems rest parent sep

/-- `flatten` from the source: collect the items, return `dict(items)`. -/
def flatten (d : List (String × JValue)) (parent : String) (sep : String) :
    List (String × JValue) :=
  pyDict (flattenItems d parent sep)

/-- The root-to-leaf key paths of a nested record together with the value
stored at each leaf, lists already replaced by their string serialization
(the shape `flatten` is expected to preserve). -/
def leavesR : List (String × JValue) → List (List String × JValue)
  | [] => []
  | (k, .obj fields) :: rest =>
    (leavesR fields).map (fun p => (k :: p.1, p.2)) ++ leavesR rest
  | (k, .list xs) :: rest => ([k], .str (pyRepr (.list xs))) :: leavesR rest
  | (k, v) :: rest => ([k], v) :: leavesR rest

/-- Join a key path onto a parent prefix exactly the way `flatten` builds
`new_key` step by step. -/
def joinKey (parent : String) (sep : String) (p : List String) : String :=
  p.foldl (fun acc k => if acc = "" then k else acc ++ sep ++ k) parent

/-- Split a flat column name on the default separator `"__"` (the semantics
of Python `s.split("__")`, greedy leftmost). -/
def splitUU : List Char → List (List Char)
  | [] => [[]]
  | '_' :: '_' :: rest => [] :: splitUU rest
  | c :: rest =>
    match splitUU rest with
    | g :: gs => (c :: g) :: gs
    | [] => [[c]]

/-- `s.split("__")` on strings. -/
def splitKey (s : String) : List String := (splitUU s.data).map String.mk

example :
    flatten [("id", .num 3), ("info", .obj [("weather", .str "sunny")])] "" "__"
      = [("id", .num 3), ("info__weather", .str "sunny")] := by
  simp [flatten, flattenItems, pyDict, updateAssoc]

example :
    flatten [("a", .list [.num 1, .num 2, .str "x"])] "" "__"
      = [("a", .str (pyRepr (.list [.num 1, .num 2, .str "x"])))] := by
  simp [flatten, flattenItems, pyDict, updateAssoc]

example : splitKey "a__x__y" = ["a", "x", "y"] := by decide
example : splitKey "a____b" = ["a", "", "b"] := by decide
example : splitKey "a_b" = ["a_b"] := by decide
example : splitKey "a__" = ["a", ""] := by decide
example :
    leavesR [("a", .obj [("x__y", .num 1)])] = [(["a", "x__y"], .num 1)] := by
  simp [leavesR]

/-! ### The schema flattener `flatten_schema`

Python's `sorted` (stable, keys compared lexicographically by code point)
is realised as a stable insertion sort with the boolean order `strLe`;
`itertools.groupby` over the sorted list raises on the first group of size
`> 1`, i.e. on the first adjacent pair of equal keys (`firstDupKey`).

The source function both returns the flattened dict and mutates property
descriptors in place in its `anyOf` branch, so the embedding returns the
post-state of the schema next to the result.  The recursive call
`flatten_schema(v, parent_key + [k], sep=sep).items()` in the `object`
branch is inlined in `processProps` (lemma `flatten_schemaS_obj` below
re-packages it); `flatten_schemaS` itself is the non-recursive wrapper
doing `d["properties"]`, the loop, the sort and the duplicate check.
-/

/-- Lexicographic order on character lists (Python string comparison). -/
def charsLe : List Char → List Char → Bool
  | [], _ => true
  | _ :: _, [] => false
  | a :: as, b :: bs => if a = b then charsLe as bs else decide (a < b)

def strLe (a b : String) : Bool := charsLe a.data b.data

/-- Comparison by key: the order `sorted(items, key=lambda item: item[0])`
sorts by. -/
def pairLe (a b : String × JValue) : Prop := strLe a.1 b.1 = true

instance : DecidableRel pairLe := fun a b => by
  unfold pairLe
  infer_instance

/-- Python `sorted(items, key=fst)`: a stable sort by key (insertion sort
places an element before the first existing element it is `≤`, which is
exactly stability). -/
def sortPairs (l : List (String × JValue)) : List (String × JValue) :=
  List.insertionSort pairLe l

/-- The first key appearing twice in a row (on a sorted list: the first key
of a `groupby` group with more than one entry). -/
def firstDupKey : List (String × JValue) → Option String
  | (a, _) :: (b, w) :: rest =>
    if a = b then some a else firstDupKey ((b, w) :: rest)
  | _ => none

/-- The tail of `flatten_schema`: sort the collected items, raise
`ValueError` naming the first duplicated column, return `dict(sorted_items)`. -/
def finalizeItems (items : List (String × JValue)) :
    Except PyErr (List (String × JValue)) :=
  match firstDupKey (sortPairs items) with
  | some n => .error (.valueErrorDup n)
  | none => .ok (pyDict (sortPairs items))

/-- A dict lookup returns a structurally smaller value. -/
theorem lookupObj_sizeOf {fs : List (String × JValue)} {k : String} {v : JValue}
    (h : lookupObj fs k = some v) : sizeOf v < sizeOf fs := by
  induction fs with
  | nil => simp [lookupObj] at h
  | cons p rest ih =>
    obtain ⟨k', v'⟩ := p
    simp only [lookupObj] at h
    split at h
    · cases h
      simp only [List.cons.sizeOf_spec, Prod.mk.sizeOf_spec]
      omega
    · have := ih h
      simp only [List.cons.sizeOf_spec, Prod.mk.sizeOf_spec]
      omega

/-- The `anyOf`/`oneOf` branch of the loop body (no explicit `"type"` in
the descriptor): `property = list(v.values())[0][0]`; when
`property["type"]` equals `"string"`/`"array"` it is overwritten in place
with `["null", "string"]`/`["null", "array"]` and the mutated descriptor is
emitted; any other value of `property["type"]` emits nothing.  The non-list
shapes of `v.values()[0]` reproduce the exceptions of `[0]`-indexing and of
subscripting the result with `"type"`: an empty list raises `IndexError`, a
dict raises `KeyError` (its keys are strings, not `0`), a non-empty string
yields a character whose `["type"]` subscript raises `TypeError`, numbers
and `None` raise `TypeError` at `[0]`. -/
def processAnyOf (k : String) (vfs : List (String × JValue)) (parent : List String)
    (sep : String) : Except PyErr (List (String × JValue) × JValue) :=
  match vfs with
  | [] => .error .indexError
  | (k0, w) :: vrest =>
    match w with
    | .list [] => .error .indexError
    | .list (p :: es) =>
      match p with
      | .obj pfs =>
        match lookupObj pfs "type" with
        | none => .error .keyError
        | some t =>
          if isStrEq t "string" then
            .ok ([(flatten_key k parent sep,
                   JValue.obj
                     (updateAssoc pfs "type" (.list [.str "null", .str "string"])))],
              JValue.obj ((k0,
                JValue.list
                  (JValue.obj
                    (updateAssoc pfs "type" (.list [.str "null", .str "string"]))
                    :: es)) :: vrest))
          else if isStrEq t "array" then
            .ok ([(flatten_key k parent sep,
                   JValue.obj
                     (updateAssoc pfs "type" (.list [.str "null", .str "array"])))],
              JValue.obj ((k0,
                JValue.list
                  (JValue.obj
                    (updateAssoc pfs "type" (.list [.str "null", .str "array"]))
                    :: es)) :: vrest))
          else .ok ([], JValue.obj vfs)
      | _ => .error .typeError
    | .str s => if s = "" then .error .indexError else .error .typeError
    | .obj _ => .error .keyError
    | _ => .error .typeError

mutual

/-- The `"object" in v["type"]` branch of the loop body: the recursive
`flatten_schema(v, parent_key + [k], sep=sep).items()` call, inlined
(properties lookup with its `KeyError`/`AttributeError`, the inner loop,
sort, duplicate check and `dict(...)`), together with the post-state of
`v` (its `"properties"` entry replaced by its own post-state). -/
def processObjRecurse (k : String) (vfs : List (String × JValue))
    (parent : List String) (sep : String) :
    Except PyErr (List (String × JValue) × JValue) :=
  match hlp : lookupObj vfs "properties" with
  | none => .error .keyError
  | some (.obj pl) =>
    match processProps pl (parent ++ [k]) sep with
    | .error e => .error e
    | .ok (innerItems, innerPost) =>
      match finalizeItems innerItems with
      | .error e => .error e
      | .ok innerRes =>
        .ok (innerRes, JValue.obj (updateAssoc vfs "properties" (.obj innerPost)))
  | some _ => .error .attributeError
termination_by (sizeOf vfs, 0)
decreasing_by
  have h1 := lookupObj_sizeOf hlp
  simp only [JValue.obj.sizeOf_spec] at h1 ⊢
  omega

/-- The `"type" in v.keys()` branch of the loop body: dispatch on
`"object" in v["type"]` (whose `TypeError`s propagate); without `object`
the property is emitted unchanged under its flat key. -/
def processTyped (k : String) (vfs : List (String × JValue)) (t : JValue)
    (parent : List String) (sep : String) :
    Except PyErr (List (String × JValue) × JValue) :=
  match pyContains "object" t with
  | .error e => .error e
  | .ok true => processObjRecurse k vfs parent sep
  | .ok false => .ok ([(flatten_key k parent sep, JValue.obj vfs)], JValue.obj vfs)
termination_by (sizeOf vfs, 1)

/-- One iteration of the `for k, v in d["properties"].items()` loop of
`flatten_schema`: the items this property contributes and the post-state of
its descriptor `v`.  In source order: `if not v` reaches `logger.warn(...)`
— but no `logger` is defined or imported anywhere in the module, so this
raises `NameError`; `v.keys()` raises `AttributeError` on non-dicts;
then the `"type" in v.keys()` dispatch. -/
def processOne (k : String) (v : JValue) (parent : List String) (sep : String) :
    Except PyErr (List (String × JValue) × JValue) :=
  if pyFalsy v then .error .nameError
  else
    match v with
    | .obj vfs =>
      match lookupObj vfs "type" with
      | some t => processTyped k vfs t parent sep
      | none => processAnyOf k vfs parent sep
    | _ => .error .attributeError
termination_by (sizeOf v, 2)
decreasing_by
  simp only [JValue.obj.sizeOf_spec]
  omega

/-- The whole collection loop of `flatten_schema`: process the properties
in order, concatenating their contributed items and rebuilding the
post-state property list; the first exception aborts. -/
def processProps : List (String × JValue) → List String → String →
    Except PyErr (List (String × JValue) × List (String × JValue))
  | [], _, _ => .ok ([], [])
  | (k, v) :: rest, parent, sep =>
    match processOne k v parent sep with
    | .error e => .error e
    | .ok (items, v2) =>
      match processProps rest parent sep with
      | .error e => .error e
      | .ok (restItems, restPost) => .ok (items ++ restItems, (k, v2) :: restPost)
termination_by l _ _ => (sizeOf l, 3)
decreasing_by
  all_goals
    simp only [JValue.obj.sizeOf_spec, List.cons.sizeOf_spec, Prod.mk.sizeOf_spec]
    omega

end

/-- `flatten_schema` with the mutation made visible: the flattened mapping
together with the post-state of the input schema. -/
def flatten_schemaS (d : JValue) (parent : List String) (sep : String) :
    Except PyErr (List (String × JValue) × JValue) :=
  match pyIndexStr d "properties" with
  | .error e => .error e
  | .ok (.obj pl) =>
    match processProps pl parent sep with
    | .error e => .error e
    | .ok (items, post) =>
      match finalizeItems items with
      | .error e => .error e
      | .ok res =>
        .ok (res,
          match d with
          | .obj dfs => .obj (updateAssoc dfs "properties" (.obj post))
          | other => other)
  | .ok _ => .error .attributeError

/-- `flatten_schema(d)` as its caller sees the return value. -/
def flatten_schemaC (d : JValue) : Except PyErr (List (String × JValue)) :=
  match flatten_schemaS d [] "__" with
  | .ok (items, _) => .ok items
  | .error e => .error e

/-! ### One-step equations for the schema flattener

All later proofs, concrete and inductive, go through these bridge lemmas
instead of unfolding the well-founded definitions on concrete arguments
(which the kernel cannot reduce). -/

/-- Is the value a dict? -/
def jIsObj : JValue → Bool
  | .obj _ => true
  | _ => false

theorem processProps_nil (parent : List String) (sep : String) :
    processProps [] parent sep = .ok ([], []) := by
  rw [processProps.eq_def]

theorem processProps_cons_err {k : String} {v : JValue} {parent : List String}
    {sep : String} {e : PyErr} (rest : List (String × JValue))
    (h : processOne k v parent sep = .error e) :
    processProps ((k, v) :: rest) parent sep = .error e := by
  rw [processProps.eq_def]
  simp only [h]

theorem processProps_cons_err2 {k : String} {v : JValue} {parent : List String}
    {sep : String} {e : PyErr} {its : List (String × JValue)} {v2 : JValue}
    {rest : List (String × JValue)}
    (h : processOne k v parent sep = .ok (its, v2))
    (hr : processProps rest parent sep = .error e) :
    processProps ((k, v) :: rest) parent sep = .error e := by
  rw [processProps.eq_def]
  simp only [h, hr]

theorem processProps_cons_ok {k : String} {v : JValue} {parent : List String}
    {sep : String} {its ri : List (String × JValue)} {v2 : JValue}
    {rest rp : List (String × JValue)}
    (h : processOne k v parent sep = .ok (its, v2))
    (hr : processProps rest parent sep = .ok (ri, rp)) :
    processProps ((k, v) :: rest) parent sep = .ok (its ++ ri, (k, v2) :: rp) := by
  rw [processProps.eq_def]
  simp only [h, hr]

theorem processOne_falsy (k : String) (v : JValue) (parent : List String)
    (sep : String) (h : pyFalsy v = true) :
    processOne k v parent sep = .error .nameError := by
  rw [processOne.eq_def]
  simp only [h, reduceIte]

theorem processOne_nonobj (k : String) (v : JValue) (parent : List String)
    (sep : String) (h : pyFalsy v = false) (h2 : jIsObj v = false) :
    processOne k v parent sep = .error .attributeError := by
  rw [processOne.eq_def]
  cases v <;> simp only [jIsObj, Bool.true_eq_false] at h2 <;>
    simp only [h, Bool.false_eq_true, reduceIte]

theorem processOne_contains_err (k : String) (vfs : List (String × JValue))
    {t : JValue} {e : PyErr} (parent : List String) (sep : String)
    (h0 : pyFalsy (.obj vfs) = false)
    (ht : lookupObj vfs "type" = some t)
    (hc : pyContains "object" t = .error e) :
    processOne k (.obj vfs) parent sep = .error e := by
  rw [processOne.eq_def]
  simp only [h0, ht, Bool.false_eq_true, reduceIte]
  rw [processTyped.eq_def]
  simp only [hc]

theorem processOne_plain (k : String) (vfs : List (String × JValue))
    {t : JValue} (parent : List String) (sep : String)
    (h0 : pyFalsy (.obj vfs) = false)
    (ht : lookupObj vfs "type" = some t)
    (hc : pyContains "object" t = .ok false) :
    processOne k (.obj vfs) parent sep
      = .ok ([(flatten_key k parent sep, .obj vfs)], .obj vfs) := by
  rw [processOne.eq_def]
  simp only [h0, ht, Bool.false_eq_true, reduceIte]
  rw [processTyped.eq_def]
  simp only [hc]

/-- `processObjRecurse` unfolded with a non-dependent match (its defining
match names the lookup equation for termination, which blocks direct
rewriting). -/
theorem processObjRecurse_eq (k : String) (vfs : List (String × JValue))
    (parent : List String) (sep : String) :
    processObjRecurse k vfs parent sep =
      match lookupObj vfs "properties" with
      | none => .error .keyError
      | some (.obj pl) =>
        match processProps pl (parent ++ [k]) sep with
        | .error e => .error e
        | .ok (innerItems, innerPost) =>
          match finalizeItems innerItems with
          | .error e => .error e
          | .ok innerRes =>
            .ok (innerRes, JValue.obj (updateAssoc vfs "properties" (.obj innerPost)))
      | some _ => .error .attributeError := by
  rw [processObjRecurse.eq_def]
  split
  · next heq => rw [heq]
  · next pl heq => rw [heq]
  · next w heq hne =>
    rw [hne]
    cases w <;> try rfl
    exact (heq _ rfl).elim

theorem processOne_obj_noprops (k : String) (vfs : List (String × JValue))
    {t : JValue} (parent : List String) (sep : String)
    (h0 : pyFalsy (.obj vfs) = false)
    (ht : lookupObj vfs "type" = some t)
    (hc : pyContains "object" t = .ok true)
    (hp : lookupObj vfs "properties" = none) :
    processOne k (.obj vfs) parent sep = .error .keyError := by
  rw [processOne.eq_def]
  simp only [h0, ht, Bool.false_eq_true, reduceIte]
  rw [processTyped.eq_def]
  simp only [hc]
  rw [processObjRecurse_eq]
  simp only [hp]

theorem processOne_obj_badprops (k : String) (vfs : List (String × JValue))
    {t w : JValue} (parent : List String) (sep : String)
    (h0 : pyFalsy (.obj vfs) = false)
    (ht : lookupObj vfs "type" = some t)
    (hc : pyContains "object" t = .ok true)
    (hp : lookupObj vfs "properties" = some w)
    (hw : jIsObj w = false) :
    processOne k (.obj vfs) parent sep = .error .attributeError := by
  rw [processOne.eq_def]
  simp only [h0, ht, Bool.false_eq_true, reduceIte]
  rw [processTyped.eq_def]
  simp only [hc]
  rw [processObjRecurse_eq]
  simp only [hp]
  cases w <;> simp only [jIsObj, Bool.true_eq_false] at hw <;> rfl

theorem processOne_obj_inner_err (k : String) (vfs : List (String × JValue))
    {pl : List (String × JValue)} {t : JValue}
    {e : PyErr} (parent : List String) (sep : String)
    (h0 : pyFalsy (.obj vfs) = false)
    (ht : lookupObj vfs "type" = some t)
    (hc : pyContains "object" t = .ok true)
    (hp : lookupObj vfs "properties" = some (.obj pl))
    (hi : processProps pl (parent ++ [k]) sep = .error e) :
    processOne k (.obj vfs) parent sep = .error e := by
  rw [processOne.eq_def]
  simp only [h0, ht, Bool.false_eq_true, reduceIte]
  rw [processTyped.eq_def]
  simp only [hc]
  rw [processObjRecurse_eq]
  simp only [hp, hi]

theorem processOne_obj_fin_err (k : String) (vfs : List (String × JValue))
    {pl ii ip : List (String × JValue)} {t : JValue}
    {e : PyErr} (parent : List String) (sep : String)
    (h0 : pyFalsy (.obj vfs) = false)
    (ht : lookupObj vfs "type" = some t)
    (hc : pyContains "object" t = .ok true)
    (hp : lookupObj vfs "properties" = some (.obj pl))
    (hi : processProps pl (parent ++ [k]) sep = .ok (ii, ip))
    (hf : finalizeItems ii = .error e) :
    processOne k (.obj vfs) parent sep = .error e := by
  rw [processOne.eq_def]
  simp only [h0, ht, Bool.false_eq_true, reduceIte]
  rw [processTyped.eq_def]
  simp only [hc]
  rw [processObjRecurse_eq]
  simp only [hp, hi, hf]

theorem processOne_obj_ok (k : String) (vfs : List (String × JValue))
    {pl ii ip ir : List (String × JValue)} {t : JValue}
    (parent : List String) (sep : String)
    (h0 : pyFalsy (.obj vfs) = false)
    (ht : lookupObj vfs "type" = some t)
    (hc : pyContains "object" t = .ok true)
    (hp : lookupObj vfs "properties" = some (.obj pl))
    (hi : processProps pl (parent ++ [k]) sep = .ok (ii, ip))
    (hf : finalizeItems ii = .ok ir) :
    processOne k (.obj vfs) parent sep
      = .ok (ir, .obj (updateAssoc vfs "properties" (.obj ip))) := by
  rw [processOne.eq_def]
  simp only [h0, ht, Bool.false_eq_true, reduceIte]
  rw [processTyped.eq_def]
  simp only [hc]
  rw [processObjRecurse_eq]
  simp only [hp, hi, hf]

theorem processOne_anyof (k : String) (vfs : List (String × JValue))
    (parent : List String) (sep : String)
    (h0 : pyFalsy (.obj vfs) = false)
    (ht : lookupObj vfs "type" = none) :
    processOne k (.obj vfs) parent sep = processAnyOf k vfs parent sep := by
  rw [processOne.eq_def]
  simp only [h0, ht, Bool.false_eq_true, reduceIte]

theorem flatten_schemaS_err_top (d : JValue) {e : PyErr}
    (parent : List String) (sep : String)
    (h : pyIndexStr d "properties" = .error e) :
    flatten_schemaS d parent sep = .error e := by
  rw [flatten_schemaS.eq_def]
  simp only [h]

theorem flatten_schemaS_badprops (d : JValue) {w : JValue}
    (parent : List String) (sep : String)
    (h : pyIndexStr d "properties" = .ok w) (hw : jIsObj w = false) :
    flatten_schemaS d parent sep = .error .attributeError := by
  rw [flatten_schemaS.eq_def]
  simp only [h]
  cases w <;> simp only [jIsObj, Bool.true_eq_false] at hw <;> rfl

theorem flatten_schemaS_proc_err (d : JValue) {pl : List (String × JValue)}
    {e : PyErr} (parent : List String) (sep : String)
    (h : pyIndexStr d "properties" = .ok (.obj pl))
    (hp : processProps pl parent sep = .error e) :
    flatten_schemaS d parent sep = .error e := by
  rw [flatten_schemaS.eq_def]
  simp only [h, hp]

theorem flatten_schemaS_fin_err (d : JValue) {pl items post : List (String × JValue)}
    {e : PyErr} (parent : List String) (sep : String)
    (h : pyIndexStr d "properties" = .ok (.obj pl))
    (hp : processProps pl parent sep = .ok (items, post))
    (hf : finalizeItems items = .error e) :
    flatten_schemaS d parent sep = .error e := by
  rw [flatten_schemaS.eq_def]
  simp only [h, hp, hf]

theorem flatten_schemaS_ok (dfs : List (String × JValue))
    {pl items post res : List (String × JValue)}
    (parent : List String) (sep : String)
    (h : lookupObj dfs "properties" = some (.obj pl))
    (hp : processProps pl parent sep = .ok (items, post))
    (hf : finalizeItems items = .ok res) :
    flatten_schemaS (.obj dfs) parent sep
      = .ok (res, .obj (updateAssoc dfs "properties" (.obj post))) := by
  rw [flatten_schemaS.eq_def]
  simp only [pyIndexStr, h, hp, hf]

theorem flatten_schemaC_ok {d : JValue} {items : List (String × JValue)} {post : JValue}
    (h : flatten_schemaS d [] "__" = .ok (items, post)) :
    flatten_schemaC d = .ok items := by
  rw [flatten_schemaC.eq_def]
  simp only [h]

theorem flatten_schemaC_err {d : JValue} {e : PyErr}
    (h : flatten_schemaS d [] "__" = .error e) :
    flatten_schemaC d = .error e := by
  rw [flatten_schemaC.eq_def]
  simp only [h]

example :
    flatten_schemaC (.obj [("properties", .obj [("a", .obj [])])]) = .error .nameError := by
  have h1 : processOne "a" (.obj []) [] "__" = .error .nameError :=
    processOne_falsy "a" (.obj []) [] "__" rfl
  have h2 : processProps [("a", .obj [])] [] "__" = .error .nameError :=
    processProps_cons_err _ h1
  exact flatten_schemaC_err (flatten_schemaS_proc_err _ [] "__" rfl h2)

example :
    flatten_schemaC
      (.obj [("properties", .obj
        [("id", .obj [("type", .str "integer")]),
         ("info", .obj [("properties", .obj [("weather", .obj [("type", .str "string")])])])])])
      = .error .keyError := by
  have hid : processOne "id" (.obj [("type", .str "integer")]) [] "__"
      = .ok ([("id", .obj [("type", .str "integer")])], .obj [("type", .str "integer")]) := by
    rw [processOne_plain "id" [("type", .str "integer")] [] "__" rfl rfl rfl]
    rfl
  have hinfo : processOne "info"
      (.obj [("properties", .obj [("weather", .obj [("type", .str "string")])])]) [] "__"
      = .error .keyError := by
    rw [processOne_anyof "info"
      [("properties", .obj [("weather", .obj [("type", .str "string")])])] [] "__" rfl rfl]
    rfl
  have h2 : processProps
      [("id", .obj [("type", .str "integer")]),
       ("info", .obj [("properties", .obj [("weather", .obj [("type", .str "string")])])])] [] "__"
      = .error .keyError :=
    processProps_cons_err2 hid (processProps_cons_err _ hinfo)
  exact flatten_schemaC_err (flatten_schemaS_proc_err _ [] "__" rfl h2)

example :
    flatten_schemaC
      (.obj [("properties", .obj
        [("id", .obj [("type", .str "integer")]),
         ("info", .obj
           [("type", .list [.str "object"]),
            ("properties", .obj [("weather", .obj [("type", .str "string")])])])])])
      = .ok [("id", .obj [("type", .str "integer")]),
             ("info__weather", .obj [("type", .str "string")])] := by
  have hw : processOne "weather" (.obj [("type", .str "string")]) ["info"] "__"
      = .ok ([("info__weather", .obj [("type", .str "string")])], .obj [("type", .str "string")]) := by
    rw [processOne_plain "weather" [("type", .str "string")] ["info"] "__" rfl rfl rfl]
    rfl
  have hwl : processProps [("weather", .obj [("type", .str "string")])] ["info"] "__"
      = .ok ([("info__weather", .obj [("type", .str "string")])],
             [("weather", .obj [("type", .str "string")])]) :=
    processProps_cons_ok hw (processProps_nil _ _)
  have hinfo : processOne "info"
      (.obj [("type", .list [.str "object"]),
             ("properties", .obj [("weather", .obj [("type", .str "string")])])]) [] "__"
      = .ok ([("info__weather", .obj [("type", .str "string")])],
          .obj [("type", .list [.str "object"]),
                ("properties", .obj [("weather", .obj [("type", .str "string")])])]) := by
    rw [processOne_obj_ok "info"
      [("type", .list [.str "object"]),
       ("properties", .obj [("weather", .obj [("type", .str "string")])])]
      [] "__" rfl rfl rfl rfl hwl rfl]
    rfl
  have hid : processOne "id" (.obj [("type", .str "integer")]) [] "__"
      = .ok ([("id", .obj [("type", .str "integer")])], .obj [("type", .str "integer")]) := by
    rw [processOne_plain "id" [("type", .str "integer")] [] "__" rfl rfl rfl]
    rfl
  have h2 : processProps
      [("id", .obj [("type", .str "integer")]),
       ("info", .obj
         [("type", .list [.str "object"]),
          ("properties", .obj [("weather", .obj [("type", .str "string")])])])] [] "__"
      = .ok ([("id", .obj [("type", .str "integer")]),
              ("info__weather", .obj [("type", .str "string")])],
             [("id", .obj [("type", .str "integer")]),
              ("info", .obj
                [("type", .list [.str "object"]),
                 ("properties", .obj [("weather", .obj [("type", .str "string")])])])]) :=
    processProps_cons_ok hid (processProps_cons_ok hinfo (processProps_nil _ _))
  have h3 := flatten_schemaS_ok
    [("properties", JValue.obj
      [("id", .obj [("type", .str "integer")]),
       ("info", .obj
         [("type", .list [.str "object"]),
          ("properties", .obj [("weather", .obj [("type", .str "string")])])])])]
    [] "__" rfl h2 rfl
  rw [show (updateAssoc
      [("properties", JValue.obj
        [("id", .obj [("type", .str "integer")]),
         ("info", .obj
           [("type", .list [.str "object"]),
            ("properties", .obj [("weather", .obj [("type", .str "string")])])])])] "properties"
      (JValue.obj [("id", .obj [("type", .str "integer")]),
         ("info", .obj
           [("type", .list [.str "object"]),
            ("properties", .obj [("weather", .obj [("type", .str "string")])])])]))
    = [("properties", JValue.obj
        [("id", .obj [("type", .str "integer")]),
         ("info", .obj
           [("type", .list [.str "object"]),
            ("properties", .obj [("weather", .obj [("type", .str "string")])])])])] from rfl] at h3
  exact flatten_schemaC_ok h3

/-! ### The type mapper `sqlalchemy_column_type` and the table builder -/

/-- The sqlalchemy column types the module can return (`String`,
`TIMESTAMP`, `Float`, `BigInteger`, `Boolean`). -/
inductive SQLType where
  | string
  | timestamp
  | float
  | bigInteger
  | boolean

/-- `sqlalchemy_column_type` from the source: `schema_property["type"]`
first (its exceptions propagate), the optional `format`, then the if/elif
chain in source order, each `in`-test with Python `in` semantics.  The
`elif "integer" in t and "string" in t` / `elif "integer" in t` pair is
folded into one nested test with the same results and the same errors. -/
def sqlalchemy_column_type (schema_property : JValue) : Except PyErr SQLType :=
  match pyIndexStr schema_property "type" with
  | .error e => .error e
  | .ok pt =>
    let pf : Option JValue :=
      match schema_property with
      | .obj fs => lookupObj fs "format"
      | _ => none
    match pyContains "object" pt with
    | .error e => .error e
    | .ok true => .ok .string
    | .ok false =>
      match pyContains "array" pt with
      | .error e => .error e
      | .ok true => .ok .string
      | .ok false =>
        if (match pf with | some f => isStrEq f "date-time" | none => false) then
          .ok .timestamp
        else
          match pyContains "number" pt with
          | .error e => .error e
          | .ok true => .ok .float
          | .ok false =>
            match pyContains "integer" pt with
            | .error e => .error e
            | .ok true =>
              match pyContains "string" pt with
              | .error e => .error e
              | .ok true => .ok .string
              | .ok false => .ok .bigInteger
            | .ok false =>
              match pyContains "boolean" pt with
              | .error e => .error e
              | .ok true => .ok .boolean
              | .ok false => .ok .string

/-- A sqlalchemy `Column(name, type, primary_key=pk)`. -/
structure SColumn where
  name : String
  ctype : SQLType
  primary_key : Bool

/-- A sqlalchemy `Table(stream, MetaData(), *columns)`. -/
structure STable where
  name : String
  columns : List SColumn

/-- The column-building loop of `generate_sqlalchemy_table`: one column per
flattened property in order, `primary_key = name in key_properties`;
exceptions from the type mapper propagate. -/
def buildCols : List (String × JValue) → List String → Except PyErr (List SColumn)
  | [], _ => .ok []
  | (n, s) :: rest, key_properties =>
    match sqlalchemy_column_type s with
    | .error e => .error e
    | .ok t =>
      match buildCols rest key_properties with
      | .error e => .error e
      | .ok cs => .ok (⟨n, t, key_properties.contains n⟩ :: cs)

/-- `generate_sqlalchemy_table` from the source: flatten the schema, build
the columns, and append a `TIMESTAMP` column when `timestamp_column` is
truthy and not already among the flattened names.  (The source also builds
an unused set comprehension `schema_dict` of throw-away `Column` objects;
it has no effect on the result and is omitted.) -/
def generate_sqlalchemy_table (stream : String) (key_properties : List String)
    (json_schema : JValue) (timestamp_column : Option String) :
    Except PyErr STable :=
  match flatten_schemaC json_schema with
  | .error e => .error e
  | .ok flat =>
    match buildCols flat key_properties with
    | .error e => .error e
    | .ok cols =>
      .ok ⟨stream,
        match timestamp_column with
        | some tc =>
          if (tc != "") && !((flat.map Prod.fst).contains tc) then
            cols ++ [⟨tc, .timestamp, false⟩]
          else cols
        | none => cols⟩

theorem generate_err (stream : String) (key_properties : List String)
    {json_schema : JValue} (timestamp_column : Option String) {e : PyErr}
    (h : flatten_schemaC json_schema = .error e) :
    generate_sqlalchemy_table stream key_properties json_schema timestamp_column
      = .error e := by
  rw [generate_sqlalchemy_table.eq_def]
  simp only [h]

theorem generate_ok (stream : String) (key_properties : List String)
    {json_schema : JValue} (timestamp_column : Option String)
    {flat : List (String × JValue)} {cols : List SColumn}
    (h : flatten_schemaC json_schema = .ok flat)
    (hb : buildCols flat key_properties = .ok cols) :
    generate_sqlalchemy_table stream key_properties json_schema timestamp_column
      = .ok ⟨stream,
          match timestamp_column with
          | some tc =>
            if (tc != "") && !((flat.map Prod.fst).contains tc) then
              cols ++ [⟨tc, .timestamp, false⟩]
            else cols
          | none => cols⟩ := by
  rw [generate_sqlalchemy_table.eq_def]
  simp only [h, hb]

/-! ### Claims about the Key Inflector (C8, C2) -/

/-- C8 counterexample: `inflect_column_name "HTTPStatus"` is
`"http_status"` with a single underscore, not `"http__status"` as the
claim's example states; the double underscore only arises when the input
already has an underscore at the case boundary. -/
theorem inflect_httpstatus_counterexample :
    inflect_column_name "HTTPStatus" = "http_status" ∧
      inflect_column_name "HTTPStatus" ≠ "http__status" := by
  constructor
  · decide
  · decide

/-- C8 (amended): `inflect_column_name` splits camelCase and acronym
boundaries with a single underscore — between an uppercase run and a
following capitalized word (`HTTPStatus` → `http_status`) and between a
lowercase-or-digit and a following uppercase letter (`area51Zone` →
`area51_zone`); an underscore already present at such a boundary is
doubled (`HTTP_Status` → `http__status`, `weather_Info` →
`weather__info`). -/
theorem inflect_boundary_behaviour :
    inflect_column_name "HTTPStatus" = "http_status" ∧
      inflect_column_name "aBCd" = "a_b_cd" ∧
      inflect_column_name "area51Zone" = "area51_zone" ∧
      inflect_column_name "HTTP_Status" = "http__status" ∧
      inflect_column_name "weather_Info" = "weather__info" := by
  refine ⟨?_, ?_, ?_, ?_, ?_⟩ <;> decide

/-- C2 counterexample: for the 63-digit key the joined inflected name is 63
characters long, abbreviation strips nothing (digits are not lowercase
letters), and `flatten_key` returns a name of length 63, not `< 63`;
moreover two distinct 63-character keys sharing their first three
characters both abbreviate to `"abc"`, so the abbreviation is not
injective. -/
theorem flatten_key_length_counterexample :
    63 ≤ (inflect_column_name (String.mk (List.replicate 63 '1'))).length ∧
      ¬ ((flatten_key (String.mk (List.replicate 63 '1')) [] "__").length < 63) ∧
      63 ≤ (inflect_column_name (String.mk ('a' :: 'b' :: 'c' :: List.replicate 60 'd'))).length ∧
      63 ≤ (inflect_column_name (String.mk ('a' :: 'b' :: 'c' :: List.replicate 60 'e'))).length ∧
      String.mk ('a' :: 'b' :: 'c' :: List.replicate 60 'd')
        ≠ String.mk ('a' :: 'b' :: 'c' :: List.replicate 60 'e') ∧
      flatten_key (String.mk ('a' :: 'b' :: 'c' :: List.replicate 60 'd')) [] "__"
        = flatten_key (String.mk ('a' :: 'b' :: 'c' :: List.replicate 60 'e')) [] "__" := by
  refine ⟨?_, ?_, ?_, ?_, ?_, ?_⟩ <;> decide

/-- The abbreviation loop either gets the joined name under 63 characters
or runs out of segments, having abbreviated every one of them. -/
theorem abbrevLoop_spec (sep : String) :
    ∀ todo done : List String,
      (String.intercalate sep (abbrevLoop sep done todo)).length < 63 ∨
        abbrevLoop sep done todo = done ++ todo.map abbrevSeg := by
  intro todo
  induction todo with
  | nil =>
    intro done
    right
    simp [abbrevLoop]
  | cons seg rest ih =>
    intro done
    rw [abbrevLoop]
    by_cases h : 63 ≤ (String.intercalate sep (done ++ seg :: rest)).length
    · simp only [h, reduceIte]
      rcases ih (done ++ [abbrevSeg seg]) with h1 | h1
      · exact Or.inl h1
      · right
        rw [h1, List.append_assoc]
        rfl
    · simp only [h, reduceIte]
      left
      omega

/-- C2 (amended): `flatten_key` abbreviates the inflected segments left to
right while the joined name is at least 63 characters long; the returned
name is shorter than 63 characters unless every segment has already been
abbreviated (in which case the result is the join of the fully abbreviated
segments, which can still be 63 characters or longer, e.g. for digit-only
keys).  Uniqueness across the schema is not guaranteed by `flatten_key`
itself (see the counterexample); the duplicate check in `flatten_schema`
is the enforcement point. -/
theorem flatten_key_length_spec (k : String) (parent_key : List String) (sep : String) :
    (flatten_key k parent_key sep).length < 63 ∨
      flatten_key k parent_key sep
        = String.intercalate sep
            (((parent_key ++ [k]).map inflect_column_name).map abbrevSeg) := by
  rw [flatten_key]
  rcases abbrevLoop_spec sep ((parent_key ++ [k]).map inflect_column_name) [] with h | h
  · exact Or.inl h
  · right
    rw [h]
    rfl

/-! ### Claims about `flatten_schema` error behaviour (C3, C4) -/

/-- C3: the code contradicts its intent on empty property definitions.
The `if not v` branch is meant to skip the property with a warning
(`logger.warn("Empty definition for ...")`), but the module never defines
or imports `logger`, so reaching this branch raises
`NameError: name 'logger' is not defined` instead of skipping: the schema
`{"properties": {"a": {}, "b": {"type": "integer"}}}` makes
`flatten_schema` raise rather than return `{"b": ...}`. -/
theorem flatten_schema_empty_definition_raises :
    flatten_schemaC
      (.obj [("properties", .obj
        [("a", .obj []), ("b", .obj [("type", .str "integer")])])])
      = .error .nameError := by
  have h1 : processOne "a" (.obj []) [] "__" = .error .nameError :=
    processOne_falsy "a" (.obj []) [] "__" rfl
  have h2 : processProps [("a", .obj []), ("b", .obj [("type", .str "integer")])] [] "__"
      = .error .nameError :=
    processProps_cons_err _ h1
  exact flatten_schemaC_err (flatten_schemaS_proc_err _ [] "__" rfl h2)

/-- C4 counterexample: on the claim's literal schema the `info` descriptor
has no `"type"` key, so `flatten_schema` enters the `anyOf` branch and
evaluates `list(v.values())[0][0]` — `v.values()[0]` is the dict
`{"weather": ...}`, and subscripting a dict with `0` raises `KeyError`;
the function raises instead of yielding the columns `id`, `info__weather`. -/
theorem flatten_schema_c4_literal_counterexample :
    flatten_schemaC
      (.obj [("properties", .obj
        [("id", .obj [("type", .str "integer")]),
         ("info", .obj [("properties", .obj [("weather", .obj [("type", .str "string")])])])])])
      = .error .keyError ∧
    flatten_schemaC
      (.obj [("properties", .obj
        [("id", .obj [("type", .str "integer")]),
         ("info", .obj [("properties", .obj [("weather", .obj [("type", .str "string")])])])])])
      ≠ .ok [("id", .obj [("type", .str "integer")]),
             ("info__weather", .obj [("type", .str "string")])] := by
  have hid : processOne "id" (.obj [("type", .str "integer")]) [] "__"
      = .ok ([("id", .obj [("type", .str "integer")])], .obj [("type", .str "integer")]) := by
    rw [processOne_plain "id" [("type", .str "integer")] [] "__" rfl rfl rfl]
    rfl
  have hinfo : processOne "info"
      (.obj [("properties", .obj [("weather", .obj [("type", .str "string")])])]) [] "__"
      = .error .keyError := by
    rw [processOne_anyof "info"
      [("properties", .obj [("weather", .obj [("type", .str "string")])])] [] "__" rfl rfl]
    rfl
  have h2 : processProps
      [("id", .obj [("type", .str "integer")]),
       ("info", .obj [("properties", .obj [("weather", .obj [("type", .str "string")])])])] [] "__"
      = .error .keyError :=
    processProps_cons_err2 hid (processProps_cons_err _ hinfo)
  have h3 : flatten_schemaC
      (.obj [("properties", .obj
        [("id", .obj [("type", .str "integer")]),
         ("info", .obj [("properties", .obj [("weather", .obj [("type", .str "string")])])])])])
      = .error .keyError :=
    flatten_schemaC_err (flatten_schemaS_proc_err _ [] "__" rfl h2)
  exact ⟨h3, by rw [h3]; intro hcontra; cases hcontra⟩

/-- C4 (amended): with the `info` descriptor carrying its (in real Singer
schemas always present) `"type": ["object"]`, the end-to-end example holds:
the schema flattens to exactly the columns `id` and `info__weather` (in
sorted order), and the record `{id: 3, info: {weather: "sunny"}}` flattens
to exactly `{id: 3, info__weather: "sunny"}`. -/
theorem flatten_schema_and_record_end_to_end :
    flatten_schemaC
      (.obj [("properties", .obj
        [("id", .obj [("type", .str "integer")]),
         ("info", .obj
           [("type", .list [.str "object"]),
            ("properties", .obj [("weather", .obj [("type", .str "string")])])])])])
      = .ok [("id", .obj [("type", .str "integer")]),
             ("info__weather", .obj [("type", .str "string")])] ∧
    flatten [("id", .num 3), ("info", .obj [("weather", .str "sunny")])] "" "__"
      = [("id", .num 3), ("info__weather", .str "sunny")] := by
  constructor
  · have hw : processOne "weather" (.obj [("type", .str "string")]) ["info"] "__"
        = .ok ([("info__weather", .obj [("type", .str "string")])], .obj [("type", .str "string")]) := by
      rw [processOne_plain "weather" [("type", .str "string")] ["info"] "__" rfl rfl rfl]
      rfl
    have hwl : processProps [("weather", .obj [("type", .str "string")])] ["info"] "__"
        = .ok ([("info__weather", .obj [("type", .str "string")])],
               [("weather", .obj [("type", .str "string")])]) :=
      processProps_cons_ok hw (processProps_nil _ _)
    have hinfo : processOne "info"
        (.obj [("type", .list [.str "object"]),
               ("properties", .obj [("weather", .obj [("type", .str "string")])])]) [] "__"
        = .ok ([("info__weather", .obj [("type", .str "string")])],
            .obj [("type", .list [.str "object"]),
                  ("properties", .obj [("weather", .obj [("type", .str "string")])])]) := by
      rw [processOne_obj_ok "info"
        [("type", .list [.str "object"]),
         ("properties", .obj [("weather", .obj [("type", .str "string")])])]
        [] "__" rfl rfl rfl rfl hwl rfl]
      rfl
    have hid : processOne "id" (.obj [("type", .str "integer")]) [] "__"
        = .ok ([("id", .obj [("type", .str "integer")])], .obj [("type", .str "integer")]) := by
      rw [processOne_plain "id" [("type", .str "integer")] [] "__" rfl rfl rfl]
      rfl
    have h2 : processProps
        [("id", .obj [("type", .str "integer")]),
         ("info", .obj
           [("type", .list [.str "object"]),
            ("properties", .obj [("weather", .obj [("type", .str "string")])])])] [] "__"
        = .ok ([("id", .obj [("type", .str "integer")]),
                ("info__weather", .obj [("type", .str "string")])],
               [("id", .obj [("type", .str "integer")]),
                ("info", .obj
                  [("type", .list [.str "object"]),
                   ("properties", .obj [("weather", .obj [("type", .str "string")])])])]) :=
      processProps_cons_ok hid (processProps_cons_ok hinfo (processProps_nil _ _))
    have h3 := flatten_schemaS_ok
      [("properties", JValue.obj
        [("id", .obj [("type", .str "integer")]),
         ("info", .obj
           [("type", .list [.str "object"]),
            ("properties", .obj [("weather", .obj [("type", .str "string")])])])])]
      [] "__" rfl h2 rfl
    exact flatten_schemaC_ok h3
  · simp [flatten, flattenItems, pyDict, updateAssoc]

/-! ### Claim about the Type Mapper (C6) -/

/-- Shapes on which Python `in` succeeds (strings, lists, dicts). -/
def canContain : JValue → Bool
  | .str _ => true
  | .list _ => true
  | .obj _ => true
  | _ => false

/-- Total version of the membership test `needle in t` on containable
shapes. -/
def mem3 (t : JValue) (needle : String) : Bool :=
  match t with
  | .str s => strSub needle.data s.data
  | .list xs => xs.any (fun x => isStrEq x needle)
  | .obj fs => fs.any (fun p => p.1 == needle)
  | _ => false

theorem pyContains_eq_mem3 {t : JValue} (h : canContain t = true) (n : String) :
    pyContains n t = .ok (mem3 t n) := by
  cases t <;> simp_all [pyContains, mem3, canContain]

/-- The `format` entry of a descriptor (`None` when absent or when the
descriptor is not a dict). -/
def fmtOf : JValue → Option JValue
  | .obj fs => lookupObj fs "format"
  | _ => none

/-- Modelled from the spec: the resolution order of §4.4, first match wins:
`object` → string, `array` → string, format `date-time` → timestamp,
`number` → float, `integer` and `string` both → string, `integer` alone →
64-bit integer, `boolean` → boolean, anything else → string. -/
def spec_column_type (has : String → Bool) (fmt : Option JValue) : SQLType :=
  if has "object" then .string
  else if has "array" then .string
  else if (match fmt with | some f => isStrEq f "date-time" | none => false) then .timestamp
  else if has "number" then .float
  else if has "integer" && has "string" then .string
  else if has "integer" then .bigInteger
  else if has "boolean" then .boolean
  else .string

/-- C6: on every descriptor whose `"type"` entry exists and has a shape
Python's `in` accepts, `sqlalchemy_column_type` resolves by first match in
exactly the spec's order (`spec_column_type`); in particular the
descriptor with type `["object"]` and format `"date-time"` resolves to the
string type, not the timestamp type, because the `object` test comes
first. -/
theorem sqlalchemy_column_type_resolution_order (sp pt : JValue)
    (h : pyIndexStr sp "type" = .ok pt) (hc : canContain pt = true) :
    sqlalchemy_column_type sp = .ok (spec_column_type (mem3 pt) (fmtOf sp)) ∧
      sqlalchemy_column_type
        (.obj [("type", .list [.str "object"]), ("format", .str "date-time")])
        = .ok .string := by
  refine ⟨?_, rfl⟩
  cases sp with
  | obj dfs =>
    rw [sqlalchemy_column_type.eq_def, spec_column_type.eq_def]
    simp only [h, pyContains_eq_mem3 hc, fmtOf]
    cases hobj : mem3 pt "object" <;>
      cases harr : mem3 pt "array" <;>
        cases hnum : mem3 pt "number" <;>
          cases hint : mem3 pt "integer" <;>
            cases hstr : mem3 pt "string" <;>
              cases hbool : mem3 pt "boolean" <;>
                by_cases hdt : (match lookupObj dfs "format" with
                  | some f => isStrEq f "date-time" | none => false) = true <;>
                (try simp only [Bool.not_eq_true] at hdt) <;>
                simp only [hobj, harr, hnum, hint, hstr, hbool, hdt, Bool.true_and,
                  Bool.false_and, reduceIte] <;> rfl
  | null => simp [pyIndexStr] at h
  | bool b => simp [pyIndexStr] at h
  | num n => simp [pyIndexStr] at h
  | str s => simp [pyIndexStr] at h
  | list xs => simp [pyIndexStr] at h

/-- C6 witness: the general theorem applied to the descriptor with type
`["object"]` and format `"date-time"`. -/
theorem sqlalchemy_column_type_resolution_order_witness :
    pyIndexStr (.obj [("type", .list [.str "object"]), ("format", .str "date-time")]) "type"
        = .ok (.list [.str "object"]) ∧
      canContain (.list [.str "object"]) = true ∧
      sqlalchemy_column_type
        (.obj [("type", .list [.str "object"]), ("format", .str "date-time")])
        = .ok (spec_column_type (mem3 (.list [.str "object"]))
            (fmtOf (.obj [("type", .list [.str "object"]), ("format", .str "date-time")]))) :=
  ⟨rfl, rfl,
    (sqlalchemy_column_type_resolution_order
      (.obj [("type", .list [.str "object"]), ("format", .str "date-time")])
      (.list [.str "object"]) rfl rfl).1⟩

/-! ### Order facts for the sort and the duplicate check (C1) -/

theorem charsLe_total : ∀ a b : List Char, charsLe a b = true ∨ charsLe b a = true := by
  intro a
  induction a with
  | nil => intro b; left; rfl
  | cons x xs ih =>
    intro b
    cases b with
    | nil => right; rfl
    | cons y ys =>
      by_cases hxy : x = y
      · subst hxy
        simp only [charsLe, reduceIte]
        exact ih ys
      · have hne := hxy
        rcases lt_or_gt_of_ne hxy with h | h
        · left
          simp only [charsLe, hxy, reduceIte]
          exact decide_eq_true h
        · right
          simp only [charsLe, (Ne.symm hxy), reduceIte]
          exact decide_eq_true h

theorem charsLe_trans : ∀ (a b c : List Char),
    charsLe a b = true → charsLe b c = true → charsLe a c = true := by
  intro a
  induction a with
  | nil => intro b c _ _; rfl
  | cons x xs ih =>
    intro b c hab hbc
    cases b with
    | nil => simp [charsLe] at hab
    | cons y ys =>
      cases c with
      | nil => simp [charsLe] at hbc
      | cons z zs =>
        simp only [charsLe] at hab hbc ⊢
        by_cases hxy : x = y <;> by_cases hyz : y = z
        · subst hxy; subst hyz
          simp only [reduceIte] at hab hbc ⊢
          exact ih ys zs hab hbc
        · subst hxy
          simp only [reduceIte, hyz] at hbc ⊢
          exact hbc
        · subst hyz
          simp only [reduceIte, hxy] at hab ⊢
          exact hab
        · simp only [hxy, hyz, reduceIte] at hab hbc
          have h1 : x < y := of_decide_eq_true hab
          have h2 : y < z := of_decide_eq_true hbc
          have h3 : x < z := lt_trans h1 h2
          have hxz : x ≠ z := ne_of_lt h3
          simp only [hxz, reduceIte]
          exact decide_eq_true h3

theorem charsLe_antisymm : ∀ (a b : List Char),
    charsLe a b = true → charsLe b a = true → a = b := by
  intro a
  induction a with
  | nil =>
    intro b _ hba
    cases b with
    | nil => rfl
    | cons y ys => simp [charsLe] at hba
  | cons x xs ih =>
    intro b hab hba
    cases b with
    | nil => simp [charsLe] at hab
    | cons y ys =>
      simp only [charsLe] at hab hba
      by_cases hxy : x = y
      · subst hxy
        simp only [reduceIte] at hab hba
        rw [ih ys hab hba]
      · simp only [hxy, (Ne.symm hxy), reduceIte] at hab hba
        exact absurd (of_decide_eq_true hba) (lt_asymm (of_decide_eq_true hab))

theorem strLe_antisymm {a b : String} (hab : strLe a b = true) (hba : strLe b a = true) :
    a = b := by
  cases a with
  | mk da =>
    cases b with
    | mk db =>
      have := charsLe_antisymm da db hab hba
      rw [this]

instance : IsTotal (String × JValue) pairLe :=
  ⟨fun a b => charsLe_total a.1.data b.1.data⟩

instance : IsTrans (String × JValue) pairLe :=
  ⟨fun a b c => charsLe_trans a.1.data b.1.data c.1.data⟩

/-- A duplicate found by the groupby scan really occurs at least twice. -/
theorem firstDupKey_some_count {l : List (String × JValue)} {n : String}
    (h : firstDupKey l = some n) : 2 ≤ (l.map Prod.fst).count n := by
  induction l with
  | nil => simp [firstDupKey] at h
  | cons a rest ih =>
    obtain ⟨ka, va⟩ := a
    cases rest with
    | nil => simp [firstDupKey] at h
    | cons b rest2 =>
      obtain ⟨kb, vb⟩ := b
      simp only [firstDupKey] at h
      split at h
      · next heq =>
        cases h
        subst heq
        simp [List.count_cons]
      · next hne =>
        have := ih h
        simp only [List.map_cons, List.count_cons] at this ⊢
        omega

/-- On a list sorted by key, the groupby scan finding no adjacent
duplicate means the keys are pairwise distinct. -/
theorem nodup_of_firstDupKey_none :
    ∀ l : List (String × JValue), List.Sorted pairLe l →
      firstDupKey l = none → (l.map Prod.fst).Nodup := by
  intro l
  induction l with
  | nil => intro _ _; simp
  | cons a rest ih =>
    intro hs h
    obtain ⟨ka, va⟩ := a
    cases rest with
    | nil => simp
    | cons b rest2 =>
      obtain ⟨kb, vb⟩ := b
      simp only [firstDupKey] at h
      split at h
      · cases h
      · next hne =>
        have hs2 := hs.of_cons
        have hrec := ih hs2 h
        simp only [List.map_cons] at hrec ⊢
        apply List.nodup_cons.mpr
        refine ⟨?_, hrec⟩
        intro hmem
        rcases List.mem_cons.mp hmem with hmem | hmem
        · exact hne hmem
        · -- ka occurs later in rest2 while ka ≤ kb ≤ that occurrence
          rcases List.mem_map.mp hmem with ⟨⟨kc, vc⟩, hcmem, hkc⟩
          have hkc2 : kc = ka := hkc
          have h1 : pairLe (ka, va) (kb, vb) := (List.sorted_cons.mp hs).1 _ (by simp)
          have h2 : pairLe (kb, vb) (kc, vc) :=
            (List.sorted_cons.mp hs2).1 _ hcmem
          have hba : strLe kb ka = true := by
            rw [← hkc2]
            exact h2
          exact hne (strLe_antisymm h1 hba)

/-- Pairwise-distinct keys mean the groupby scan finds no adjacent
duplicate. -/
theorem firstDupKey_none_of_nodup :
    ∀ l : List (String × JValue), (l.map Prod.fst).Nodup → firstDupKey l = none := by
  intro l
  induction l with
  | nil => intro _; rfl
  | cons a rest ih =>
    intro hnd
    obtain ⟨ka, va⟩ := a
    cases rest with
    | nil => rfl
    | cons b rest2 =>
      obtain ⟨kb, vb⟩ := b
      simp only [List.map_cons, List.nodup_cons] at hnd
      have hne : ka ≠ kb := by
        intro hcontra
        exact hnd.1 (by simp [hcontra])
      simp only [firstDupKey, hne, reduceIte]
      exact ih (by simp only [List.map_cons, List.nodup_cons]; exact hnd.2)

theorem updateAssoc_not_mem {k : String} (v : JValue) :
    ∀ acc : List (String × JValue), k ∉ acc.map Prod.fst →
      updateAssoc acc k v = acc ++ [(k, v)] := by
  intro acc
  induction acc with
  | nil => intro _; rfl
  | cons a rest ih =>
    intro hmem
    obtain ⟨ka, va⟩ := a
    simp only [List.map_cons, List.mem_cons, not_or] at hmem
    simp only [updateAssoc, (Ne.symm hmem.1), reduceIte, List.cons_append]
    rw [ih hmem.2]

theorem foldl_updateAssoc_nodup :
    ∀ (l acc : List (String × JValue)), (((acc ++ l).map Prod.fst)).Nodup →
      List.foldl (fun acc p => updateAssoc acc p.1 p.2) acc l = acc ++ l := by
  intro l
  induction l with
  | nil => intro acc _; simp
  | cons p rest ih =>
    intro acc hnd
    obtain ⟨k, v⟩ := p
    have hk : k ∉ acc.map Prod.fst := by
      intro hcontra
      have : ¬ ((acc ++ (k, v) :: rest).map Prod.fst).Nodup := by
        simp only [List.map_append, List.map_cons]
        intro hn
        rcases List.nodup_append.mp hn with ⟨_, _, hdisj⟩
        exact hdisj hcontra (by simp)
      exact this hnd
    simp only [List.foldl_cons]
    rw [updateAssoc_not_mem v acc hk]
    have := ih (acc ++ [(k, v)]) (by simpa using hnd)
    rw [this]
    simp

/-- `dict(pairs)` is the identity on lists with pairwise-distinct keys. -/
theorem pyDict_eq_self {l : List (String × JValue)} (h : (l.map Prod.fst).Nodup) :
    pyDict l = l := by
  have := foldl_updateAssoc_nodup l [] (by simpa using h)
  simpa [pyDict] using this

theorem sortPairs_perm (l : List (String × JValue)) : List.Perm (sortPairs l) l :=
  List.perm_insertionSort pairLe l

theorem sortPairs_sorted (l : List (String × JValue)) :
    List.Sorted pairLe (sortPairs l) :=
  List.sorted_insertionSort pairLe l

theorem finalizeItems_dup {items : List (String × JValue)} {n : String}
    (h : firstDupKey (sortPairs items) = some n) :
    finalizeItems items = .error (.valueErrorDup n) := by
  unfold finalizeItems
  rw [h]

theorem finalizeItems_noDup {items : List (String × JValue)}
    (h : firstDupKey (sortPairs items) = none) :
    finalizeItems items = .ok (pyDict (sortPairs items)) := by
  unfold finalizeItems
  rw [h]

/-- C1: `flatten_schema` and duplicate column names.  Fix a schema `d`
whose `"properties"` entry is the dict `pl` and run the collection loop.
(1) Any exception from the loop propagates (in particular a duplicate
error raised inside a nested object's own `flatten_schema` call).
(2) If the loop completes with `items`: when two entries share a column
name, the function raises the duplicate-column `ValueError` naming a
column that indeed occurs at least twice, and when no name occurs twice it
returns the full sorted item list — a permutation of everything collected,
so no entry is silently dropped — and raises no duplicate error. -/
theorem flatten_schema_duplicate_detection
    (d : JValue) (pl : List (String × JValue)) (parent : List String) (sep : String)
    (hprops : pyIndexStr d "properties" = .ok (.obj pl)) :
    (∀ e, processProps pl parent sep = .error e →
        flatten_schemaS d parent sep = .error e) ∧
    (∀ items post, processProps pl parent sep = .ok (items, post) →
      ((∃ n, 2 ≤ (items.map Prod.fst).count n) →
          ∃ n, flatten_schemaS d parent sep = .error (.valueErrorDup n) ∧
            2 ≤ (items.map Prod.fst).count n) ∧
      ((¬ ∃ n, 2 ≤ (items.map Prod.fst).count n) →
          ∃ post2, flatten_schemaS d parent sep = .ok (sortPairs items, post2) ∧
            List.Perm (sortPairs items) items)) := by
  constructor
  · intro e he
    exact flatten_schemaS_proc_err d parent sep hprops he
  · intro items post hproc
    constructor
    · rintro ⟨n, hn⟩
      -- some key occurs twice, so the sorted list has an adjacent duplicate
      have hcnt : 2 ≤ ((sortPairs items).map Prod.fst).count n := by
        have hperm : List.Perm ((sortPairs items).map Prod.fst) (items.map Prod.fst) :=
          (sortPairs_perm items).map Prod.fst
        rw [hperm.count_eq]
        exact hn
      have hnotnodup : ¬ ((sortPairs items).map Prod.fst).Nodup := by
        intro hnd
        have := List.nodup_iff_count_le_one.mp hnd n
        omega
      have hfd : firstDupKey (sortPairs items) ≠ none := by
        intro hnone
        exact hnotnodup (nodup_of_firstDupKey_none _ (sortPairs_sorted items) hnone)
      rcases hm : firstDupKey (sortPairs items) with _ | m
      · exact absurd hm hfd
      · refine ⟨m, ?_, ?_⟩
        · exact flatten_schemaS_fin_err d parent sep hprops hproc (finalizeItems_dup hm)
        · have := firstDupKey_some_count hm
          have hperm : List.Perm ((sortPairs items).map Prod.fst) (items.map Prod.fst) :=
            (sortPairs_perm items).map Prod.fst
          rw [hperm.count_eq] at this
          exact this
    · intro hnodup
      have hle : ∀ n, (items.map Prod.fst).count n ≤ 1 := by
        intro n
        by_contra hgt
        exact hnodup ⟨n, by omega⟩
      have hnd : (items.map Prod.fst).Nodup := List.nodup_iff_count_le_one.mpr hle
      have hnds : ((sortPairs items).map Prod.fst).Nodup := by
        have hperm : List.Perm ((sortPairs items).map Prod.fst) (items.map Prod.fst) :=
          (sortPairs_perm items).map Prod.fst
        exact hperm.nodup_iff.mpr hnd
      have hfd : firstDupKey (sortPairs items) = none :=
        firstDupKey_none_of_nodup _ hnds
      have hfin : finalizeItems items = .ok (sortPairs items) := by
        rw [finalizeItems_noDup hfd, pyDict_eq_self hnds]
      cases d with
      | obj dfs =>
        have hlk : lookupObj dfs "properties" = some (.obj pl) := by
          simp only [pyIndexStr] at hprops
          split at hprops
          · next hx => cases hprops; exact hx
          · cases hprops
        exact ⟨_, flatten_schemaS_ok dfs parent sep hlk hproc hfin, sortPairs_perm items⟩
      | null => simp [pyIndexStr] at hprops
      | bool b => simp [pyIndexStr] at hprops
      | num n => simp [pyIndexStr] at hprops
      | str s => simp [pyIndexStr] at hprops
      | list xs => simp [pyIndexStr] at hprops

/-- C1 witness: the duplicate-detection theorem applied to the schema
`{"properties": {"a": {"type": "object", "properties": {"b": {"type":
"integer"}}}, "a__b": {"type": "integer"}}}`, in which the nested path
`a.b` and the top-level property `a__b` flatten to the same column name
`a__b`: the collection loop succeeds and `flatten_schema` raises the
duplicate-column error naming `a__b`. -/
theorem flatten_schema_duplicate_detection_witness :
    pyIndexStr
      (.obj [("properties", .obj
        [("a", .obj [("type", .str "object"),
                     ("properties", .obj [("b", .obj [("type", .str "integer")])])]),
         ("a__b", .obj [("type", .str "integer")])])]) "properties"
      = .ok (.obj
        [("a", .obj [("type", .str "object"),
                     ("properties", .obj [("b", .obj [("type", .str "integer")])])]),
         ("a__b", .obj [("type", .str "integer")])]) ∧
    processProps
      [("a", .obj [("type", .str "object"),
                   ("properties", .obj [("b", .obj [("type", .str "integer")])])]),
       ("a__b", .obj [("type", .str "integer")])] [] "__"
      = .ok ([("a__b", .obj [("type", .str "integer")]),
              ("a__b", .obj [("type", .str "integer")])],
             [("a", .obj [("type", .str "object"),
                          ("properties", .obj [("b", .obj [("type", .str "integer")])])]),
              ("a__b", .obj [("type", .str "integer")])]) ∧
    (∃ n, flatten_schemaS
      (.obj [("properties", .obj
        [("a", .obj [("type", .str "object"),
                     ("properties", .obj [("b", .obj [("type", .str "integer")])])]),
         ("a__b", .obj [("type", .str "integer")])])]) [] "__"
      = .error (.valueErrorDup n) ∧
      2 ≤ (([("a__b", JValue.obj [("type", .str "integer")]),
             ("a__b", JValue.obj [("type", .str "integer")])].map Prod.fst).count n)) := by
  have hb : processOne "b" (.obj [("type", .str "integer")]) ["a"] "__"
      = .ok ([("a__b", .obj [("type", .str "integer")])], .obj [("type", .str "integer")]) := by
    rw [processOne_plain "b" [("type", .str "integer")] ["a"] "__" rfl rfl rfl]
    rfl
  have hbl : processProps [("b", .obj [("type", .str "integer")])] ["a"] "__"
      = .ok ([("a__b", .obj [("type", .str "integer")])],
             [("b", .obj [("type", .str "integer")])]) :=
    processProps_cons_ok hb (processProps_nil _ _)
  have ha : processOne "a"
      (.obj [("type", .str "object"),
             ("properties", .obj [("b", .obj [("type", .str "integer")])])]) [] "__"
      = .ok ([("a__b", .obj [("type", .str "integer")])],
          .obj [("type", .str "object"),
                ("properties", .obj [("b", .obj [("type", .str "integer")])])]) := by
    rw [processOne_obj_ok "a"
      [("type", .str "object"),
       ("properties", .obj [("b", .obj [("type", .str "integer")])])]
      [] "__" rfl rfl rfl rfl hbl rfl]
    rfl
  have hab : processOne "a__b" (.obj [("type", .str "integer")]) [] "__"
      = .ok ([("a__b", .obj [("type", .str "integer")])], .obj [("type", .str "integer")]) := by
    rw [processOne_plain "a__b" [("type", .str "integer")] [] "__" rfl rfl rfl]
    rfl
  have hproc : processProps
      [("a", .obj [("type", .str "object"),
                   ("properties", .obj [("b", .obj [("type", .str "integer")])])]),
       ("a__b", .obj [("type", .str "integer")])] [] "__"
      = .ok ([("a__b", .obj [("type", .str "integer")]),
              ("a__b", .obj [("type", .str "integer")])],
             [("a", .obj [("type", .str "object"),
                          ("properties", .obj [("b", .obj [("type", .str "integer")])])]),
              ("a__b", .obj [("type", .str "integer")])]) :=
    processProps_cons_ok ha (processProps_cons_ok hab (processProps_nil _ _))
  refine ⟨rfl, hproc, ?_⟩
  exact ((flatten_schema_duplicate_detection
      (.obj [("properties", .obj
        [("a", .obj [("type", .str "object"),
                     ("properties", .obj [("b", .obj [("type", .str "integer")])])]),
         ("a__b", .obj [("type", .str "integer")])])])
      [("a", .obj [("type", .str "object"),
                   ("properties", .obj [("b", .obj [("type", .str "integer")])])]),
       ("a__b", .obj [("type", .str "integer")])]
      [] "__" rfl).2 _ _ hproc).1
    ⟨"a__b", by decide⟩

/-! ### Round-trip infrastructure for the record flattener (C7, C5) -/

theorem string_data_append (a b : String) : (a ++ b).data = a.data ++ b.data := rfl

theorem string_mk_data (s : String) : String.mk s.data = s := by
  cases s
  rfl

theorem splitUU_ne_nil : ∀ s : List Char, splitUU s ≠ [] := by
  intro s
  rw [splitUU.eq_def]
  split
  · simp
  · simp
  · split <;> simp

/-- A chunk without underscores is untouched by the split. -/
theorem splitUU_no_underscore : ∀ g : List Char, '_' ∉ g → splitUU g = [g] := by
  intro g
  induction g with
  | nil => intro _; rfl
  | cons c rest ih =>
    intro hmem
    simp only [List.mem_cons, not_or] at hmem
    rw [splitUU.eq_def]
    split
    · rename_i heq
      exact absurd heq (by simp)
    · rename_i heq
      injection heq with h1 h2
      exact absurd h1.symm hmem.1
    · rename_i heq
      injection heq with h1 h2
      subst h1
      subst h2
      rw [ih hmem.2]

/-- Splitting a string that starts with an underscore-free chunk followed
by the separator peels the chunk off. -/
theorem splitUU_chunk :
    ∀ g t : List Char, '_' ∉ g → splitUU (g ++ '_' :: '_' :: t) = g :: splitUU t := by
  intro g
  induction g with
  | nil => intro t _; rfl
  | cons c rest ih =>
    intro t hmem
    simp only [List.mem_cons, not_or] at hmem
    rw [List.cons_append, splitUU.eq_def]
    split
    · rename_i heq
      exact absurd heq (by simp)
    · rename_i heq
      injection heq with h1 h2
      exact absurd h1.symm hmem.1
    · rename_i heq
      injection heq with h1 h2
      subst h1
      subst h2
      rw [ih t hmem.2]

/-- The character stream contributed by the tail of a key path when joined
with the default separator. -/
def interChars : List String → List Char
  | [] => []
  | x :: xs => '_' :: '_' :: (x.data ++ interChars xs)

theorem string_uu_data : ("__" : String).data = ['_', '_'] := rfl

theorem joinKey_data :
    ∀ (rest : List String) (acc : String), acc ≠ "" →
      (joinKey acc "__" rest).data = acc.data ++ interChars rest := by
  intro rest
  induction rest with
  | nil => intro acc _; simp [joinKey, interChars]
  | cons x xs ih =>
    intro acc hacc
    have hne : acc ++ "__" ++ x ≠ "" := by
      intro h
      have hd : (acc ++ "__" ++ x).data = [] := by rw [h]
      simp [string_data_append, string_uu_data] at hd
    have hstep : joinKey acc "__" (x :: xs) = joinKey (acc ++ "__" ++ x) "__" xs := by
      simp only [joinKey, List.foldl_cons, if_neg hacc]
    rw [hstep, ih _ hne]
    simp [string_data_append, string_uu_data, interChars]

theorem joinKey_data_top :
    ∀ (k : String) (xs : List String), k ≠ "" →
      (joinKey "" "__" (k :: xs)).data = k.data ++ interChars xs := by
  intro k xs hk
  have hstep : joinKey "" "__" (k :: xs) = joinKey k "__" xs := by
    simp [joinKey]
  rw [hstep, joinKey_data xs k hk]

theorem splitUU_interChars :
    ∀ (xs : List String) (g : List Char), '_' ∉ g →
      (∀ s ∈ xs, '_' ∉ s.data) →
      splitUU (g ++ interChars xs) = g :: xs.map String.data := by
  intro xs
  induction xs with
  | nil => intro g hg _; simp [interChars, splitUU_no_underscore g hg]
  | cons x xs ih =>
    intro g hg hxs
    simp only [interChars]
    rw [show g ++ ('_' :: '_' :: (x.data ++ interChars xs))
        = g ++ '_' :: '_' :: (x.data ++ interChars xs) from rfl]
    rw [splitUU_chunk g _ hg]
    rw [ih x.data (hxs x (by simp)) (fun s hs => hxs s (by simp [hs]))]
    simp

/-- Splitting on `"__"` undoes joining with `"__"` for a nonempty path of
nonempty, underscore-free segments. -/
theorem splitKey_joinKey :
    ∀ (p : List String), p ≠ [] → (∀ s ∈ p, s ≠ "" ∧ '_' ∉ s.data) →
      splitKey (joinKey "" "__" p) = p := by
  intro p hne hgood
  cases p with
  | nil => exact absurd rfl hne
  | cons k xs =>
    unfold splitKey
    rw [joinKey_data_top k xs (hgood k (by simp)).1]
    rw [splitUU_interChars xs k.data (hgood k (by simp)).2
        (fun s hs => (hgood s (by simp [hs])).2)]
    simp [Function.comp_def, string_mk_data]

theorem joinKey_cons (parent sep k : String) (p : List String) :
    joinKey parent sep (k :: p)
      = joinKey (if parent = "" then k else parent ++ sep ++ k) sep p := rfl

/-- Under distinctness of the joined leaf keys, `flatten`'s item list is
exactly the leaf list with each path joined onto the parent prefix. -/
theorem flattenItems_eq_leaves :
    ∀ (n : Nat) (l : List (String × JValue)) (parent sep : String), sizeOf l ≤ n →
      ((leavesR l).map (fun p => joinKey parent sep p.1)).Nodup →
      flattenItems l parent sep
        = (leavesR l).map (fun p => (joinKey parent sep p.1, p.2)) := by
  intro n
  induction n with
  | zero =>
    intro l parent sep hsz _
    cases l with
    | nil => simp [flattenItems, leavesR]
    | cons a rest =>
      simp only [List.cons.sizeOf_spec] at hsz
      omega
  | succ m ih =>
    intro l parent sep hsz hnd
    cases l with
    | nil => simp [flattenItems, leavesR]
    | cons a rest =>
      obtain ⟨k, v⟩ := a
      simp only [List.cons.sizeOf_spec, Prod.mk.sizeOf_spec] at hsz
      have hrest : sizeOf rest ≤ m := by omega
      cases v with
      | obj fields =>
        simp only [JValue.obj.sizeOf_spec] at hsz
        have hfields : sizeOf fields ≤ m := by omega
        simp only [flattenItems, leavesR, List.map_append, List.map_map] at hnd ⊢
        have hfunJ : ((fun p : List String × JValue => joinKey parent sep p.1) ∘
            (fun p : List String × JValue => (k :: p.1, p.2)))
            = (fun p : List String × JValue =>
                joinKey (if parent = "" then k else parent ++ sep ++ k) sep p.1) := by
          funext p
          rfl
        rw [hfunJ] at hnd
        obtain ⟨hnd1, hnd2, -⟩ := List.nodup_append.mp hnd
        rw [ih fields (if parent = "" then k else parent ++ sep ++ k) sep hfields hnd1]
        have hkeys : (((leavesR fields).map (fun p =>
            (joinKey (if parent = "" then k else parent ++ sep ++ k) sep p.1, p.2))).map
              Prod.fst).Nodup := by
          rw [List.map_map]
          exact hnd1
        rw [pyDict_eq_self hkeys]
        rw [ih rest parent sep hrest hnd2]
        have hfunF : ((fun p : List String × JValue => (joinKey parent sep p.1, p.2)) ∘
            (fun p : List String × JValue => (k :: p.1, p.2)))
            = (fun p : List String × JValue =>
                (joinKey (if parent = "" then k else parent ++ sep ++ k) sep p.1, p.2)) := by
          funext p
          rfl
        rw [hfunF]
      | list xs =>
        simp only [flattenItems, leavesR, List.map_cons] at hnd ⊢
        rw [ih rest parent sep hrest (List.Nodup.of_cons hnd)]
        simp [joinKey]
      | null =>
        simp only [flattenItems, leavesR, List.map_cons] at hnd ⊢
        rw [ih rest parent sep hrest (List.Nodup.of_cons hnd)]
        simp [joinKey]
      | bool b =>
        simp only [flattenItems, leavesR, List.map_cons] at hnd ⊢
        rw [ih rest parent sep hrest (List.Nodup.of_cons hnd)]
        simp [joinKey]
      | num x =>
        simp only [flattenItems, leavesR, List.map_cons] at hnd ⊢
        rw [ih rest parent sep hrest (List.Nodup.of_cons hnd)]
        simp [joinKey]
      | str s =>
        simp only [flattenItems, leavesR, List.map_cons] at hnd ⊢
        rw [ih rest parent sep hrest (List.Nodup.of_cons hnd)]
        simp [joinKey]

/-- `flatten` under distinct joined leaf keys: the dict of the item list is
the item list itself. -/
theorem flatten_eq_leaves (d : List (String × JValue)) (parent sep : String)
    (hnd : ((leavesR d).map (fun p => joinKey parent sep p.1)).Nodup) :
    flatten d parent sep = (leavesR d).map (fun p => (joinKey parent sep p.1, p.2)) := by
  unfold flatten
  rw [flattenItems_eq_leaves (sizeOf d) d parent sep (le_refl _) hnd]
  apply pyDict_eq_self
  rw [List.map_map]
  exact hnd

/-- C7 counterexample: when two distinct source paths produce the same flat
key, `flatten` silently drops the earlier value instead of storing every
value under its flat key: the leaf value `1` at path `a.b` disappears. -/
theorem flatten_collision_counterexample :
    flatten [("a", .obj [("b", .num 1)]), ("a__b", .num 2)] "" "__"
      = [("a__b", .num 2)]
    ∧ leavesR [("a", .obj [("b", .num 1)]), ("a__b", .num 2)]
      = [(["a", "b"], .num 1), (["a__b"], .num 2)] := by
  constructor
  · simp [flatten, flattenItems, pyDict, updateAssoc]
  · simp [leavesR]

/-- C7 (amended): provided no two leaf paths join to the same flat key,
`flatten` stores each non-mapping, non-list value unchanged under its joined
flat key, recurses into nested mappings extending the prefix, and replaces
each list value by its string serialization — its output is exactly the leaf
list of the record with paths joined. -/
theorem flatten_values_characterisation (d : List (String × JValue)) (parent sep : String)
    (hnd : ((leavesR d).map (fun p => joinKey parent sep p.1)).Nodup) :
    flatten d parent sep = (leavesR d).map (fun p => (joinKey parent sep p.1, p.2)) :=
  flatten_eq_leaves d parent sep hnd

theorem flatten_values_characterisation_witness :
    flatten [("id", .num 3), ("info", .obj [("weather", .str "sunny")])] "" "__"
      = (leavesR [("id", .num 3), ("info", .obj [("weather", .str "sunny")])]).map
          (fun p => (joinKey "" "__" p.1, p.2)) :=
  flatten_values_characterisation _ "" "__" (by simp [leavesR, joinKey])

/-- C5 counterexample: flatten-then-split does not recover the key
structure when a key itself contains the separator, or when underscores at
a key boundary merge with the separator; both records have depth 2. -/
theorem flatten_split_counterexample :
    ((flatten [("a", .obj [("x__y", .num 1)])] "" "__").map
        (fun p => (splitKey p.1, p.2))
      ≠ leavesR [("a", .obj [("x__y", .num 1)])])
    ∧ ((flatten [("a_", .obj [("b", .num 1)])] "" "__").map
        (fun p => (splitKey p.1, p.2))
      ≠ leavesR [("a_", .obj [("b", .num 1)])]) := by
  constructor
  · intro h
    simp [flatten, flattenItems, pyDict, updateAssoc, leavesR, splitKey, splitUU] at h
  · intro h
    simp [flatten, flattenItems, pyDict, updateAssoc, leavesR, splitKey, splitUU] at h

/-- C5 (amended): for records all of whose leaf path segments are nonempty
and underscore-free and whose leaf paths are pairwise distinct, flattening
with the default separator and re-splitting each flat key recovers exactly
the leaf structure, values unchanged except lists serialized to strings. -/
theorem flatten_split_round_trip (d : List (String × JValue))
    (hgood : ∀ pr ∈ leavesR d, pr.1 ≠ [] ∧ ∀ s ∈ pr.1, s ≠ "" ∧ '_' ∉ s.data)
    (hp : ((leavesR d).map Prod.fst).Nodup) :
    (flatten d "" "__").map (fun p => (splitKey p.1, p.2)) = leavesR d := by
  have hnd : ((leavesR d).map (fun p => joinKey "" "__" p.1)).Nodup := by
    have hcomp : (fun p : List String × JValue => joinKey "" "__" p.1)
        = (fun s => joinKey "" "__" s) ∘ Prod.fst := rfl
    rw [hcomp, ← List.map_map]
    apply List.Nodup.map_on ?_ hp
    intro x hx y hy hfeq
    obtain ⟨px, hpx, hpx2⟩ := List.mem_map.mp hx
    obtain ⟨py, hpy, hpy2⟩ := List.mem_map.mp hy
    subst hpx2
    subst hpy2
    have hgx := hgood px hpx
    have hgy := hgood py hpy
    have hs := congrArg splitKey hfeq
    rw [splitKey_joinKey px.1 hgx.1 hgx.2, splitKey_joinKey py.1 hgy.1 hgy.2] at hs
    exact hs
  rw [flatten_eq_leaves d "" "__" hnd, List.map_map]
  have hid : ∀ pr ∈ leavesR d,
      ((fun p : String × JValue => (splitKey p.1, p.2)) ∘
        (fun p : List String × JValue => (joinKey "" "__" p.1, p.2))) pr = id pr := by
    intro pr hpr
    obtain ⟨hne, hg⟩ := hgood pr hpr
    simp [Function.comp_def, splitKey_joinKey pr.1 hne hg]
  rw [List.map_congr_left hid, List.map_id]

theorem flatten_split_round_trip_witness :
    (flatten [("k", .obj [("w", .num 7)])] "" "__").map
        (fun p => (splitKey p.1, p.2))
      = leavesR [("k", .obj [("w", .num 7)])] :=
  flatten_split_round_trip _ (by simp [leavesR]) (by simp [leavesR])

/-! ### C9: the table generator succeeds on every flattened schema -/

/-- Did the computation return normally? -/
def exOk {α : Type} : Except PyErr α → Bool
  | .ok _ => true
  | .error _ => false

/-- The column type of a descriptor, with a dummy on the error path. -/
def colTypeOf (s : JValue) : SQLType :=
  match sqlalchemy_column_type s with
  | .ok t => t
  | .error _ => .string

/-- The trailing timestamp column of `generate_sqlalchemy_table`: present
exactly when `timestamp_column` is truthy and not among the flat names. -/
def tsColumns (timestamp_column : Option String) (flat : List (String × JValue)) :
    List SColumn :=
  match timestamp_column with
  | some tc =>
    if (tc != "") && !((flat.map Prod.fst).contains tc) then
      [⟨tc, .timestamp, false⟩]
    else []
  | none => []

/-- `in` never raises on a container that admitted one membership test. -/
theorem pyContains_total {pt : JValue} {n1 : String} {b : Bool}
    (h : pyContains n1 pt = .ok b) (n2 : String) :
    ∃ b2, pyContains n2 pt = .ok b2 := by
  cases pt with
  | str s => exact ⟨_, rfl⟩
  | list xs => exact ⟨_, rfl⟩
  | obj fs => exact ⟨_, rfl⟩
  | null => simp [pyContains] at h
  | bool b0 => simp [pyContains] at h
  | num n0 => simp [pyContains] at h

/-- A descriptor as `flatten_schema` emits it: a dict whose `"type"` entry
admits membership tests. -/
def DescOk (s : JValue) : Prop :=
  ∃ fs pt b, s = JValue.obj fs ∧ lookupObj fs "type" = some pt ∧
    pyContains "object" pt = .ok b

theorem sct_exOk {fs : List (String × JValue)} {pt : JValue} {b : Bool}
    (hlt : lookupObj fs "type" = some pt)
    (hc : pyContains "object" pt = .ok b) :
    exOk (sqlalchemy_column_type (.obj fs)) = true := by
  obtain ⟨ba, ha⟩ := pyContains_total hc "array"
  obtain ⟨bn, hn⟩ := pyContains_total hc "number"
  obtain ⟨bi, hi⟩ := pyContains_total hc "integer"
  obtain ⟨bs, hs⟩ := pyContains_total hc "string"
  obtain ⟨bb, hbl⟩ := pyContains_total hc "boolean"
  cases hfmt : lookupObj fs "format" with
  | none =>
    cases b <;> cases ba <;> cases bn <;> cases bi <;> cases bs <;> cases bb <;>
      simp [exOk, sqlalchemy_column_type, pyIndexStr, hlt, hc, ha, hn, hi, hs, hbl, hfmt]
  | some f =>
    cases hieq : isStrEq f "date-time" <;>
      (cases b <;> cases ba <;> cases bn <;> cases bi <;> cases bs <;> cases bb <;>
        simp [exOk, sqlalchemy_column_type, pyIndexStr, hlt, hc, ha, hn, hi, hs, hbl,
          hfmt, hieq])

theorem sct_exOk_of_descOk {s : JValue} (h : DescOk s) :
    exOk (sqlalchemy_column_type s) = true := by
  obtain ⟨fs, pt, b, hfs, hlt, hc⟩ := h
  subst hfs
  exact sct_exOk hlt hc

theorem exOk_colTypeOf {s : JValue} (h : exOk (sqlalchemy_column_type s) = true) :
    sqlalchemy_column_type s = .ok (colTypeOf s) := by
  unfold colTypeOf
  cases hx : sqlalchemy_column_type s with
  | ok t => rfl
  | error e => rw [hx] at h; simp [exOk] at h

/-- `d[k] = v` makes `d[k]` return `v`. -/
theorem lookup_updateAssoc_self :
    ∀ (fs : List (String × JValue)) (k : String) (v : JValue),
      lookupObj (updateAssoc fs k v) k = some v := by
  intro fs k v
  induction fs with
  | nil => simp [updateAssoc, lookupObj]
  | cons a rest ih =>
    obtain ⟨ka, va⟩ := a
    simp only [updateAssoc]
    split
    · next hk => simp [lookupObj, hk]
    · next hk => simp [lookupObj, hk, ih]

theorem mem_updateAssoc {fs : List (String × JValue)} {k : String} {v : JValue}
    {p : String × JValue} (h : p ∈ updateAssoc fs k v) : p ∈ fs ∨ p = (k, v) := by
  induction fs with
  | nil =>
    simp only [updateAssoc, List.mem_singleton] at h
    right
    exact h
  | cons a rest ih =>
    obtain ⟨ka, va⟩ := a
    simp only [updateAssoc] at h
    split at h
    · next hk =>
      rcases List.mem_cons.mp h with h1 | h2
      · right
        rw [h1, hk]
      · left
        exact List.mem_cons_of_mem _ h2
    · next hk =>
      rcases List.mem_cons.mp h with h1 | h2
      · left
        rw [h1]
        exact List.mem_cons_self _ _
      · rcases ih h2 with h3 | h4
        · left
          exact List.mem_cons_of_mem _ h3
        · right
          exact h4

theorem mem_foldl_updateAssoc :
    ∀ (l acc : List (String × JValue)) (p : String × JValue),
      p ∈ l.foldl (fun acc q => updateAssoc acc q.1 q.2) acc → p ∈ acc ∨ p ∈ l := by
  intro l
  induction l with
  | nil =>
    intro acc p h
    simp only [List.foldl_nil] at h
    left
    exact h
  | cons a rest ih =>
    intro acc p h
    simp only [List.foldl_cons] at h
    rcases ih _ p h with h1 | h2
    · rcases mem_updateAssoc h1 with h3 | h4
      · left
        exact h3
      · right
        simp [h4]
    · right
      exact List.mem_cons_of_mem _ h2

/-- Every pair of `dict(l)` is a pair of `l`. -/
theorem mem_pyDict {l : List (String × JValue)} {p : String × JValue}
    (h : p ∈ pyDict l) : p ∈ l := by
  rcases mem_foldl_updateAssoc l [] p h with h1 | h2
  · simp at h1
  · exact h2

theorem mem_sortPairs {l : List (String × JValue)} {p : String × JValue}
    (h : p ∈ sortPairs l) : p ∈ l :=
  (List.Perm.mem_iff (sortPairs_perm l)).mp h

/-- Every item the `anyOf` branch emits is a well-shaped descriptor. -/
theorem processAnyOf_descOk {k : String} {vfs items : List (String × JValue)}
    {parent : List String} {sep : String} {v2 : JValue}
    (h : processAnyOf k vfs parent sep = .ok (items, v2)) :
    ∀ p ∈ items, DescOk p.2 := by
  intro p hp
  cases vfs with
  | nil =>
    rw [processAnyOf.eq_def] at h
    exact Except.noConfusion h
  | cons a vrest =>
    obtain ⟨k0, w⟩ := a
    rw [processAnyOf.eq_def] at h
    cases w with
    | list es =>
      cases es with
      | nil => exact Except.noConfusion h
      | cons pfirst es2 =>
        cases pfirst with
        | obj pfs =>
          simp only at h
          cases hlt : lookupObj pfs "type" with
          | none =>
            simp only [hlt] at h
            exact Except.noConfusion h
          | some t =>
            simp only [hlt] at h
            by_cases hts : isStrEq t "string" = true
            · simp only [hts, if_true] at h
              simp only [Except.ok.injEq, Prod.mk.injEq] at h
              obtain ⟨h1, h2⟩ := h
              rw [← h1] at hp
              simp only [List.mem_singleton] at hp
              rw [hp]
              exact ⟨updateAssoc pfs "type" (.list [.str "null", .str "string"]),
                .list [.str "null", .str "string"], _,
                rfl, lookup_updateAssoc_self pfs "type" _, rfl⟩
            · simp only [hts, if_false, Bool.false_eq_true] at h
              by_cases hta : isStrEq t "array" = true
              · simp only [hta, if_true] at h
                simp only [Except.ok.injEq, Prod.mk.injEq] at h
                obtain ⟨h1, h2⟩ := h
                rw [← h1] at hp
                simp only [List.mem_singleton] at hp
                rw [hp]
                exact ⟨updateAssoc pfs "type" (.list [.str "null", .str "array"]),
                  .list [.str "null", .str "array"], _,
                  rfl, lookup_updateAssoc_self pfs "type" _, rfl⟩
              · simp only [hta, if_false, Bool.false_eq_true] at h
                simp only [Except.ok.injEq, Prod.mk.injEq] at h
                obtain ⟨h1, h2⟩ := h
                rw [← h1] at hp
                simp at hp
        | null => exact Except.noConfusion h
        | bool b0 => exact Except.noConfusion h
        | num n0 => exact Except.noConfusion h
        | str s0 => exact Except.noConfusion h
        | list l0 => exact Except.noConfusion h
    | str s0 =>
      by_cases hs : s0 = ""
      · simp only [hs, if_pos rfl] at h
        exact Except.noConfusion h
      · simp only [if_neg hs] at h
        exact Except.noConfusion h
    | obj ofs => exact Except.noConfusion h
    | null => exact Except.noConfusion h
    | bool b0 => exact Except.noConfusion h
    | num n0 => exact Except.noConfusion h

theorem finalizeItems_ok_inv {items flat : List (String × JValue)}
    (h : finalizeItems items = .ok flat) :
    firstDupKey (sortPairs items) = none ∧ flat = pyDict (sortPairs items) := by
  unfold finalizeItems at h
  cases hd : firstDupKey (sortPairs items) with
  | some n => rw [hd] at h; exact Except.noConfusion h
  | none =>
    rw [hd] at h
    injection h with h1
    exact ⟨rfl, h1.symm⟩

/-- Every item the collection loop emits is a well-shaped descriptor. -/
theorem processProps_descOk :
    ∀ (n : Nat) (l : List (String × JValue)) (parent : List String) (sep : String)
      (items post : List (String × JValue)),
      sizeOf l ≤ n →
      processProps l parent sep = .ok (items, post) →
      ∀ p ∈ items, DescOk p.2 := by
  intro n
  induction n with
  | zero =>
    intro l parent sep items post hsz h p hp
    cases l with
    | nil =>
      rw [processProps_nil parent sep] at h
      simp only [Except.ok.injEq, Prod.mk.injEq] at h
      obtain ⟨h1, h2⟩ := h
      rw [← h1] at hp
      simp at hp
    | cons a rest =>
      simp only [List.cons.sizeOf_spec] at hsz
      omega
  | succ m ih =>
    intro l parent sep items post hsz h p hp
    cases l with
    | nil =>
      rw [processProps_nil parent sep] at h
      simp only [Except.ok.injEq, Prod.mk.injEq] at h
      obtain ⟨h1, h2⟩ := h
      rw [← h1] at hp
      simp at hp
    | cons a rest =>
      obtain ⟨k, v⟩ := a
      simp only [List.cons.sizeOf_spec, Prod.mk.sizeOf_spec] at hsz
      have hrest : sizeOf rest ≤ m := by omega
      cases ho : processOne k v parent sep with
      | error e =>
        rw [processProps_cons_err rest ho] at h
        exact Except.noConfusion h
      | ok pr =>
        obtain ⟨its, v2⟩ := pr
        cases hr : processProps rest parent sep with
        | error e =>
          rw [processProps_cons_err2 ho hr] at h
          exact Except.noConfusion h
        | ok rr =>
          obtain ⟨ri, rp⟩ := rr
          rw [processProps_cons_ok ho hr] at h
          simp only [Except.ok.injEq, Prod.mk.injEq] at h
          obtain ⟨h1, h2⟩ := h
          rw [← h1] at hp
          rcases List.mem_append.mp hp with hp1 | hp2
          · -- the new property's own items: invert processOne
            cases hf0 : pyFalsy v with
            | true =>
              rw [processOne_falsy k v parent sep hf0] at ho
              exact Except.noConfusion ho
            | false =>
              cases v with
              | null =>
                rw [processOne_nonobj k _ parent sep hf0 rfl] at ho
                exact Except.noConfusion ho
              | bool b0 =>
                rw [processOne_nonobj k _ parent sep hf0 rfl] at ho
                exact Except.noConfusion ho
              | num n0 =>
                rw [processOne_nonobj k _ parent sep hf0 rfl] at ho
                exact Except.noConfusion ho
              | str s0 =>
                rw [processOne_nonobj k _ parent sep hf0 rfl] at ho
                exact Except.noConfusion ho
              | list l0 =>
                rw [processOne_nonobj k _ parent sep hf0 rfl] at ho
                exact Except.noConfusion ho
              | obj vfs =>
                cases hlt : lookupObj vfs "type" with
                | none =>
                  rw [processOne_anyof k vfs parent sep hf0 hlt] at ho
                  exact processAnyOf_descOk ho p hp1
                | some t =>
                  cases hc : pyContains "object" t with
                  | error e =>
                    rw [processOne_contains_err k vfs parent sep hf0 hlt hc] at ho
                    exact Except.noConfusion ho
                  | ok bb =>
                    cases bb with
                    | false =>
                      rw [processOne_plain k vfs parent sep hf0 hlt hc] at ho
                      simp only [Except.ok.injEq, Prod.mk.injEq] at ho
                      obtain ⟨ho1, ho2⟩ := ho
                      rw [← ho1] at hp1
                      simp only [List.mem_singleton] at hp1
                      rw [hp1]
                      exact ⟨vfs, t, false, rfl, hlt, hc⟩
                    | true =>
                      cases hps : lookupObj vfs "properties" with
                      | none =>
                        rw [processOne_obj_noprops k vfs parent sep hf0 hlt hc hps] at ho
                        exact Except.noConfusion ho
                      | some w =>
                        cases w with
                        | obj pl =>
                          cases hi : processProps pl (parent ++ [k]) sep with
                          | error e =>
                            rw [processOne_obj_inner_err k vfs parent sep
                              hf0 hlt hc hps hi] at ho
                            exact Except.noConfusion ho
                          | ok iip =>
                            obtain ⟨ii, ip⟩ := iip
                            cases hfin : finalizeItems ii with
                            | error e =>
                              rw [processOne_obj_fin_err k vfs parent sep
                                hf0 hlt hc hps hi hfin] at ho
                              exact Except.noConfusion ho
                            | ok ir =>
                              rw [processOne_obj_ok k vfs parent sep
                                hf0 hlt hc hps hi hfin] at ho
                              simp only [Except.ok.injEq, Prod.mk.injEq] at ho
                              obtain ⟨ho1, ho2⟩ := ho
                              rw [← ho1] at hp1
                              obtain ⟨hdup, hir⟩ := finalizeItems_ok_inv hfin
                              rw [hir] at hp1
                              have hpii : p ∈ ii := mem_sortPairs (mem_pyDict hp1)
                              have hplsz : sizeOf pl ≤ m := by
                                have hlk := lookupObj_sizeOf hps
                                simp only [JValue.obj.sizeOf_spec] at hlk hsz
                                omega
                              exact ih pl (parent ++ [k]) sep ii ip hplsz hi p hpii
                        | null =>
                          rw [processOne_obj_badprops k vfs parent sep
                            hf0 hlt hc hps rfl] at ho
                          exact Except.noConfusion ho
                        | bool b0 =>
                          rw [processOne_obj_badprops k vfs parent sep
                            hf0 hlt hc hps rfl] at ho
                          exact Except.noConfusion ho
                        | num n0 =>
                          rw [processOne_obj_badprops k vfs parent sep
                            hf0 hlt hc hps rfl] at ho
                          exact Except.noConfusion ho
                        | str s0 =>
                          rw [processOne_obj_badprops k vfs parent sep
                            hf0 hlt hc hps rfl] at ho
                          exact Except.noConfusion ho
                        | list l0 =>
                          rw [processOne_obj_badprops k vfs parent sep
                            hf0 hlt hc hps rfl] at ho
                          exact Except.noConfusion ho
          · exact ih rest parent sep ri rp hrest hr p hp2

/-- When every descriptor type-checks, the column loop succeeds and builds
one column per flattened property, in order, with the primary-key flag
equal to membership in the key-property set. -/
theorem buildCols_ok (key_properties : List String) :
    ∀ flat : List (String × JValue),
      (∀ p ∈ flat, exOk (sqlalchemy_column_type p.2) = true) →
      buildCols flat key_properties
        = .ok (flat.map fun p => ⟨p.1, colTypeOf p.2, key_properties.contains p.1⟩) := by
  intro flat
  induction flat with
  | nil => intro _; rfl
  | cons a rest ih =>
    intro h
    obtain ⟨n, s⟩ := a
    have h1 : sqlalchemy_column_type s = .ok (colTypeOf s) :=
      exOk_colTypeOf (h (n, s) (List.mem_cons_self _ _))
    have h2 := ih (fun p hp => h p (List.mem_cons_of_mem _ hp))
    simp only [buildCols, h1, h2, List.map_cons]

theorem flatten_schemaC_ok_inv {d : JValue} {flat : List (String × JValue)}
    (h : flatten_schemaC d = .ok flat) :
    ∃ dfs pl items post, d = JValue.obj dfs ∧
      lookupObj dfs "properties" = some (.obj pl) ∧
      processProps pl [] "__" = .ok (items, post) ∧
      finalizeItems items = .ok flat := by
  rw [flatten_schemaC.eq_def] at h
  cases hs : flatten_schemaS d [] "__" with
  | error e =>
    rw [hs] at h
    exact Except.noConfusion h
  | ok pr =>
    obtain ⟨items0, post0⟩ := pr
    rw [hs] at h
    simp only [Except.ok.injEq] at h
    subst h
    rw [flatten_schemaS.eq_def] at hs
    cases d with
    | obj dfs =>
      cases hlp : lookupObj dfs "properties" with
      | none =>
        simp only [pyIndexStr, hlp] at hs
        exact Except.noConfusion hs
      | some w =>
        cases w with
        | obj pl =>
          simp only [pyIndexStr, hlp] at hs
          cases hpp : processProps pl [] "__" with
          | error e =>
            rw [hpp] at hs
            exact Except.noConfusion hs
          | ok ipr =>
            obtain ⟨items, post⟩ := ipr
            rw [hpp] at hs
            simp only at hs
            cases hfin : finalizeItems items with
            | error e =>
              rw [hfin] at hs
              exact Except.noConfusion hs
            | ok res =>
              rw [hfin] at hs
              simp only [Except.ok.injEq, Prod.mk.injEq] at hs
              obtain ⟨hs1, hs2⟩ := hs
              exact ⟨dfs, pl, items, post, rfl, hlp, hpp, by rw [hfin, hs1]⟩
        | null => simp only [pyIndexStr, hlp] at hs; exact Except.noConfusion hs
        | bool b0 => simp only [pyIndexStr, hlp] at hs; exact Except.noConfusion hs
        | num n0 => simp only [pyIndexStr, hlp] at hs; exact Except.noConfusion hs
        | str s0 => simp only [pyIndexStr, hlp] at hs; exact Except.noConfusion hs
        | list l0 => simp only [pyIndexStr, hlp] at hs; exact Except.noConfusion hs
    | null => simp only [pyIndexStr] at hs; exact Except.noConfusion hs
    | bool b0 => simp only [pyIndexStr] at hs; exact Except.noConfusion hs
    | num n0 => simp only [pyIndexStr] at hs; exact Except.noConfusion hs
    | str s0 => simp only [pyIndexStr] at hs; exact Except.noConfusion hs
    | list l0 => simp only [pyIndexStr] at hs; exact Except.noConfusion hs

/-- C9: whenever `flatten_schema` returns a flattened mapping `flat`,
`generate_sqlalchemy_table` succeeds and returns the table named by the
stream whose columns are exactly one per flattened property, in `flat`'s
order, typed by `sqlalchemy_column_type`, with the primary-key flag equal
to membership of the name in the key-property set, followed by a timestamp
column exactly when a truthy timestamp-column name is configured and is
not among the flattened names; moreover `flat` is in sorted
flattened-name order. -/
theorem generate_table_characterisation (stream : String) (key_properties : List String)
    (json_schema : JValue) (timestamp_column : Option String)
    (flat : List (String × JValue))
    (h : flatten_schemaC json_schema = .ok flat) :
    generate_sqlalchemy_table stream key_properties json_schema timestamp_column
      = .ok ⟨stream,
          (flat.map fun p => ⟨p.1, colTypeOf p.2, key_properties.contains p.1⟩)
            ++ tsColumns timestamp_column flat⟩
      ∧ List.Sorted pairLe flat := by
  obtain ⟨dfs, pl, items, post, hd, hlp, hpp, hfin⟩ := flatten_schemaC_ok_inv h
  obtain ⟨hdup, hflat⟩ := finalizeItems_ok_inv hfin
  have hsorted0 := sortPairs_sorted items
  have hnd : ((sortPairs items).map Prod.fst).Nodup :=
    nodup_of_firstDupKey_none _ hsorted0 hdup
  have hflat2 : flat = sortPairs items := by
    rw [hflat, pyDict_eq_self hnd]
  have hdesc : ∀ p ∈ flat, DescOk p.2 := by
    intro p hp
    have hmem : p ∈ items := mem_sortPairs (hflat2 ▸ hp)
    exact processProps_descOk (sizeOf pl) pl [] "__" items post (le_refl _) hpp p hmem
  have hb := buildCols_ok key_properties flat
    (fun p hp => sct_exOk_of_descOk (hdesc p hp))
  refine ⟨?_, ?_⟩
  · have hts : ∀ cols : List SColumn,
        (match timestamp_column with
          | some tc =>
            if (tc != "") && !((flat.map Prod.fst).contains tc) then
              cols ++ [⟨tc, SQLType.timestamp, false⟩]
            else cols
          | none => cols)
        = cols ++ tsColumns timestamp_column flat := by
      intro cols
      cases timestamp_column with
      | none => simp [tsColumns]
      | some tc =>
        simp only [tsColumns]
        by_cases hcond : ((tc != "") && !((flat.map Prod.fst).contains tc)) = true
        · rw [if_pos hcond, if_pos hcond]
        · rw [if_neg hcond, if_neg hcond, List.append_nil]
    rw [generate_ok stream key_properties timestamp_column h hb, hts]
  · rw [hflat2]
    exact hsorted0

theorem generate_table_characterisation_witness :
    generate_sqlalchemy_table "s" ["id"]
        (.obj [("properties", .obj
          [("id", .obj [("type", .str "integer")]),
           ("name", .obj [("type", .str "string")])])]) (some "ts")
      = .ok ⟨"s",
          ([("id", JValue.obj [("type", .str "integer")]),
            ("name", JValue.obj [("type", .str "string")])].map
              fun p => ⟨p.1, colTypeOf p.2, ["id"].contains p.1⟩)
            ++ tsColumns (some "ts")
                [("id", JValue.obj [("type", .str "integer")]),
                 ("name", JValue.obj [("type", .str "string")])]⟩
      ∧ List.Sorted pairLe
          [("id", JValue.obj [("type", .str "integer")]),
           ("name", JValue.obj [("type", .str "string")])] := by
  have h1 : processOne "id" (.obj [("type", .str "integer")]) [] "__"
      = .ok ([("id", .obj [("type", .str "integer")])],
             .obj [("type", .str "integer")]) := by
    rw [processOne_plain "id" [("type", .str "integer")] [] "__" rfl rfl rfl]
    rfl
  have h2 : processOne "name" (.obj [("type", .str "string")]) [] "__"
      = .ok ([("name", .obj [("type", .str "string")])],
             .obj [("type", .str "string")]) := by
    rw [processOne_plain "name" [("type", .str "string")] [] "__" rfl rfl rfl]
    rfl
  have hpp := processProps_cons_ok h1 (processProps_cons_ok h2 (processProps_nil [] "__"))
  have hfin : finalizeItems ([("id", JValue.obj [("type", .str "integer")])]
        ++ ([("name", JValue.obj [("type", .str "string")])] ++ []))
      = .ok [("id", JValue.obj [("type", .str "integer")]),
             ("name", JValue.obj [("type", .str "string")])] := rfl
  exact generate_table_characterisation "s" ["id"] _ (some "ts") _
    (flatten_schemaC_ok (flatten_schemaS_ok _ [] "__" rfl hpp hfin))

/-! ### C10: the in-place mutation of the input schema -/

/-- `d[k] = v` is the identity when `d[k]` is already `v`. -/
theorem updateAssoc_self :
    ∀ (fs : List (String × JValue)) (k : String) (v : JValue),
      lookupObj fs k = some v → updateAssoc fs k v = fs := by
  intro fs k v
  induction fs with
  | nil => intro h; simp [lookupObj] at h
  | cons a rest ih =>
    obtain ⟨ka, va⟩ := a
    intro h
    simp only [lookupObj] at h
    simp only [updateAssoc]
    split
    · next hk =>
      rw [if_pos hk] at h
      injection h with h1
      rw [h1]
    · next hk =>
      rw [if_neg hk] at h
      rw [ih h]

theorem lookup_of_updateAssoc_eq {fs : List (String × JValue)} {k : String}
    {v : JValue} (h : updateAssoc fs k v = fs) : lookupObj fs k = some v := by
  have h2 := lookup_updateAssoc_self fs k v
  rw [h] at h2
  exact h2

/-- The `anyOf` branch of the write-freedom predicate: the branch writes
exactly when the first alternative is a nonempty list of dicts whose head
has `"type"` equal to the string `"string"` or `"array"`. -/
def mutFreeAnyDispatch (vfs : List (String × JValue)) : Bool :=
  match vfs with
  | (_, .list (.obj pfs :: _)) :: _ =>
    match lookupObj pfs "type" with
    | some t2 => !(isStrEq t2 "string" || isStrEq t2 "array")
    | none => true
  | _ => true

mutual

/-- Is a recursed-into object descriptor's own property list processed
without a write? -/
def mutFreeInner (vfs : List (String × JValue)) : Bool :=
  match hlp2 : lookupObj vfs "properties" with
  | some (.obj pl) => mutFreeProps pl
  | _ => true
termination_by (sizeOf vfs, 0)
decreasing_by
  have h1 := lookupObj_sizeOf hlp2
  simp only [JValue.obj.sizeOf_spec] at h1 ⊢
  omega

/-- The `"type" in v.keys()` branch of the write-freedom predicate. -/
def mutFreeTyped (vfs : List (String × JValue)) (t : JValue) : Bool :=
  match pyContains "object" t with
  | .ok true => mutFreeInner vfs
  | _ => true
termination_by (sizeOf vfs, 1)

/-- Does processing this property descriptor leave it unchanged?  Mirrors
the branch structure of the loop body: the object branch is unchanged
exactly when its own properties all are; the `anyOf` branch is changed
exactly when the first alternative's `"type"` is the string `"string"` or
`"array"`; every other branch never writes. -/
def mutFreeOne (v : JValue) : Bool :=
  match v with
  | .obj vfs =>
    match lookupObj vfs "type" with
    | some t => mutFreeTyped vfs t
    | none => mutFreeAnyDispatch vfs
  | _ => true
termination_by (sizeOf v, 2)
decreasing_by
  simp only [JValue.obj.sizeOf_spec]
  omega

/-- Is the whole property list processed without a write? -/
def mutFreeProps : List (String × JValue) → Bool
  | [] => true
  | (_, v) :: rest => mutFreeOne v && mutFreeProps rest
termination_by l => (sizeOf l, 3)
decreasing_by
  all_goals
    simp only [List.cons.sizeOf_spec, Prod.mk.sizeOf_spec]
    omega

end

/-- Is the schema argument processed without a write? -/
def mutFreeSchema (d : JValue) : Bool :=
  match d with
  | .obj dfs =>
    match lookupObj dfs "properties" with
    | some (.obj pl) => mutFreeProps pl
    | _ => true
  | _ => true

theorem mutFreeInner_eq (vfs : List (String × JValue)) :
    mutFreeInner vfs =
      match lookupObj vfs "properties" with
      | some (.obj pl) => mutFreeProps pl
      | _ => true := by
  rw [mutFreeInner.eq_def]
  split
  · next heq => rw [heq]
  · next hne =>
    cases hlk : lookupObj vfs "properties" with
    | none => rfl
    | some w =>
      cases w with
      | obj pl => exact absurd hlk (fun hc => hne pl hc)
      | null => rfl
      | bool b0 => rfl
      | num n0 => rfl
      | str s0 => rfl
      | list l0 => rfl

theorem mutFreeProps_nil : mutFreeProps [] = true := by
  rw [mutFreeProps.eq_def]

theorem mutFreeProps_cons (k : String) (v : JValue) (rest : List (String × JValue)) :
    mutFreeProps ((k, v) :: rest) = (mutFreeOne v && mutFreeProps rest) := by
  rw [mutFreeProps.eq_def]

theorem mutFreeOne_plain {vfs : List (String × JValue)} {t : JValue}
    (hlt : lookupObj vfs "type" = some t)
    (hc : pyContains "object" t = .ok false) :
    mutFreeOne (.obj vfs) = true := by
  rw [mutFreeOne.eq_def]
  simp only [hlt]
  rw [mutFreeTyped.eq_def]
  simp only [hc]

theorem mutFreeOne_objBranch {vfs : List (String × JValue)} {t : JValue}
    (hlt : lookupObj vfs "type" = some t)
    (hc : pyContains "object" t = .ok true) :
    mutFreeOne (.obj vfs) = mutFreeInner vfs := by
  rw [mutFreeOne.eq_def]
  simp only [hlt]
  rw [mutFreeTyped.eq_def]
  simp only [hc]

theorem mutFreeOne_anyof_mut {k0 : String} {pfs : List (String × JValue)}
    {es : List JValue} {vrest : List (String × JValue)} {t2 : JValue}
    (hlt : lookupObj ((k0, JValue.list (.obj pfs :: es)) :: vrest) "type" = none)
    (hlt2 : lookupObj pfs "type" = some t2) :
    mutFreeOne (.obj ((k0, JValue.list (.obj pfs :: es)) :: vrest))
      = !(isStrEq t2 "string" || isStrEq t2 "array") := by
  rw [mutFreeOne.eq_def]
  simp only [hlt, mutFreeAnyDispatch, hlt2]

/-- The post-state of the `anyOf` branch equals its input exactly when the
branch does not write. -/
theorem processAnyOf_frame {k : String} {vfs items : List (String × JValue)}
    {parent : List String} {sep : String} {v2 : JValue}
    (hlt : lookupObj vfs "type" = none)
    (h : processAnyOf k vfs parent sep = .ok (items, v2)) :
    (v2 = .obj vfs ↔ mutFreeOne (.obj vfs) = true) := by
  cases vfs with
  | nil =>
    rw [processAnyOf.eq_def] at h
    exact Except.noConfusion h
  | cons a vrest =>
    obtain ⟨k0, w⟩ := a
    rw [processAnyOf.eq_def] at h
    cases w with
    | list es =>
      cases es with
      | nil => exact Except.noConfusion h
      | cons pfirst es2 =>
        cases pfirst with
        | obj pfs =>
          simp only at h
          cases hlt2 : lookupObj pfs "type" with
          | none =>
            simp only [hlt2] at h
            exact Except.noConfusion h
          | some t =>
            simp only [hlt2] at h
            by_cases hts : isStrEq t "string" = true
            · simp only [hts, if_true] at h
              simp only [Except.ok.injEq, Prod.mk.injEq] at h
              obtain ⟨h1, h2⟩ := h
              rw [mutFreeOne_anyof_mut hlt hlt2]
              constructor
              · intro he
                exfalso
                rw [← h2] at he
                simp only [JValue.obj.injEq, List.cons.injEq, Prod.mk.injEq,
                  JValue.list.injEq, true_and, and_true] at he
                have hl2 := lookup_of_updateAssoc_eq he
                rw [hlt2] at hl2
                injection hl2 with hq
                rw [hq] at hts
                simp [isStrEq] at hts
              · intro hmf
                rw [hts] at hmf
                simp at hmf
            · simp only [hts, Bool.false_eq_true, if_false] at h
              by_cases hta : isStrEq t "array" = true
              · simp only [hta, if_true] at h
                simp only [Except.ok.injEq, Prod.mk.injEq] at h
                obtain ⟨h1, h2⟩ := h
                rw [mutFreeOne_anyof_mut hlt hlt2]
                constructor
                · intro he
                  exfalso
                  rw [← h2] at he
                  simp only [JValue.obj.injEq, List.cons.injEq, Prod.mk.injEq,
                    JValue.list.injEq, true_and, and_true] at he
                  have hl2 := lookup_of_updateAssoc_eq he
                  rw [hlt2] at hl2
                  injection hl2 with hq
                  rw [hq] at hta
                  simp [isStrEq] at hta
                · intro hmf
                  rw [hta] at hmf
                  simp at hmf
              · simp only [hta, Bool.false_eq_true, if_false] at h
                simp only [Except.ok.injEq, Prod.mk.injEq] at h
                obtain ⟨h1, h2⟩ := h
                rw [mutFreeOne_anyof_mut hlt hlt2]
                refine iff_of_true h2.symm ?_
                rw [Bool.not_eq_true', Bool.or_eq_false_iff]
                constructor
                · exact Bool.not_eq_true _ ▸ (Bool.eq_false_iff.mpr hts)
                · exact Bool.eq_false_iff.mpr hta
        | null => exact Except.noConfusion h
        | bool b0 => exact Except.noConfusion h
        | num n0 => exact Except.noConfusion h
        | str s0 => exact Except.noConfusion h
        | list l0 => exact Except.noConfusion h
    | str s0 =>
      by_cases hs : s0 = ""
      · simp only [hs, if_pos rfl] at h
        exact Except.noConfusion h
      · simp only [if_neg hs] at h
        exact Except.noConfusion h
    | obj ofs => exact Except.noConfusion h
    | null => exact Except.noConfusion h
    | bool b0 => exact Except.noConfusion h
    | num n0 => exact Except.noConfusion h

/-- The post-state of the collection loop equals its input exactly when no
branch wrote. -/
theorem processProps_frame :
    ∀ (n : Nat) (l : List (String × JValue)) (parent : List String) (sep : String)
      (items post : List (String × JValue)),
      sizeOf l ≤ n →
      processProps l parent sep = .ok (items, post) →
      (post = l ↔ mutFreeProps l = true) := by
  intro n
  induction n with
  | zero =>
    intro l parent sep items post hsz h
    cases l with
    | nil =>
      rw [processProps_nil parent sep] at h
      simp only [Except.ok.injEq, Prod.mk.injEq] at h
      exact iff_of_true h.2.symm mutFreeProps_nil
    | cons a rest =>
      simp only [List.cons.sizeOf_spec] at hsz
      omega
  | succ m ih =>
    intro l parent sep items post hsz h
    cases l with
    | nil =>
      rw [processProps_nil parent sep] at h
      simp only [Except.ok.injEq, Prod.mk.injEq] at h
      exact iff_of_true h.2.symm mutFreeProps_nil
    | cons a rest =>
      obtain ⟨k, v⟩ := a
      simp only [List.cons.sizeOf_spec, Prod.mk.sizeOf_spec] at hsz
      have hrest : sizeOf rest ≤ m := by omega
      cases ho : processOne k v parent sep with
      | error e =>
        rw [processProps_cons_err rest ho] at h
        exact Except.noConfusion h
      | ok pr =>
        obtain ⟨its, v2⟩ := pr
        cases hr : processProps rest parent sep with
        | error e =>
          rw [processProps_cons_err2 ho hr] at h
          exact Except.noConfusion h
        | ok rr =>
          obtain ⟨ri, rp⟩ := rr
          rw [processProps_cons_ok ho hr] at h
          simp only [Except.ok.injEq, Prod.mk.injEq] at h
          obtain ⟨h1, h2⟩ := h
          have hrestIff := ih rest parent sep ri rp hrest hr
          have hone : v2 = v ↔ mutFreeOne v = true := by
            cases hf0 : pyFalsy v with
            | true =>
              rw [processOne_falsy k v parent sep hf0] at ho
              exact Except.noConfusion ho
            | false =>
              cases v with
              | null =>
                rw [processOne_nonobj k _ parent sep hf0 rfl] at ho
                exact Except.noConfusion ho
              | bool b0 =>
                rw [processOne_nonobj k _ parent sep hf0 rfl] at ho
                exact Except.noConfusion ho
              | num n0 =>
                rw [processOne_nonobj k _ parent sep hf0 rfl] at ho
                exact Except.noConfusion ho
              | str s0 =>
                rw [processOne_nonobj k _ parent sep hf0 rfl] at ho
                exact Except.noConfusion ho
              | list l0 =>
                rw [processOne_nonobj k _ parent sep hf0 rfl] at ho
                exact Except.noConfusion ho
              | obj vfs =>
                cases hlt : lookupObj vfs "type" with
                | none =>
                  rw [processOne_anyof k vfs parent sep hf0 hlt] at ho
                  exact processAnyOf_frame hlt ho
                | some t =>
                  cases hc : pyContains "object" t with
                  | error e =>
                    rw [processOne_contains_err k vfs parent sep hf0 hlt hc] at ho
                    exact Except.noConfusion ho
                  | ok bb =>
                    cases bb with
                    | false =>
                      rw [processOne_plain k vfs parent sep hf0 hlt hc] at ho
                      simp only [Except.ok.injEq, Prod.mk.injEq] at ho
                      exact iff_of_true ho.2.symm (mutFreeOne_plain hlt hc)
                    | true =>
                      cases hps : lookupObj vfs "properties" with
                      | none =>
                        rw [processOne_obj_noprops k vfs parent sep hf0 hlt hc hps] at ho
                        exact Except.noConfusion ho
                      | some w =>
                        cases w with
                        | obj pl =>
                          cases hi : processProps pl (parent ++ [k]) sep with
                          | error e =>
                            rw [processOne_obj_inner_err k vfs parent sep
                              hf0 hlt hc hps hi] at ho
                            exact Except.noConfusion ho
                          | ok iip =>
                            obtain ⟨ii, ip⟩ := iip
                            cases hfin : finalizeItems ii with
                            | error e =>
                              rw [processOne_obj_fin_err k vfs parent sep
                                hf0 hlt hc hps hi hfin] at ho
                              exact Except.noConfusion ho
                            | ok ir =>
                              rw [processOne_obj_ok k vfs parent sep
                                hf0 hlt hc hps hi hfin] at ho
                              simp only [Except.ok.injEq, Prod.mk.injEq] at ho
                              obtain ⟨ho1, ho2⟩ := ho
                              have hplsz : sizeOf pl ≤ m := by
                                have hlk := lookupObj_sizeOf hps
                                simp only [JValue.obj.sizeOf_spec] at hlk hsz
                                omega
                              have hinner := ih pl (parent ++ [k]) sep ii ip hplsz hi
                              constructor
                              · intro he
                                rw [← ho2] at he
                                simp only [JValue.obj.injEq] at he
                                have hl2 := lookup_of_updateAssoc_eq he
                                rw [hps] at hl2
                                injection hl2 with hq
                                injection hq with hq2
                                rw [mutFreeOne_objBranch hlt hc, mutFreeInner_eq]
                                simp only [hps]
                                exact hinner.mp hq2.symm
                              · intro hmf
                                rw [mutFreeOne_objBranch hlt hc, mutFreeInner_eq] at hmf
                                simp only [hps] at hmf
                                have hip := hinner.mpr hmf
                                rw [← ho2, hip,
                                  updateAssoc_self vfs "properties" (.obj pl) hps]
                        | null =>
                          rw [processOne_obj_badprops k vfs parent sep
                            hf0 hlt hc hps rfl] at ho
                          exact Except.noConfusion ho
                        | bool b0 =>
                          rw [processOne_obj_badprops k vfs parent sep
                            hf0 hlt hc hps rfl] at ho
                          exact Except.noConfusion ho
                        | num n0 =>
                          rw [processOne_obj_badprops k vfs parent sep
                            hf0 hlt hc hps rfl] at ho
                          exact Except.noConfusion ho
                        | str s0 =>
                          rw [processOne_obj_badprops k vfs parent sep
                            hf0 hlt hc hps rfl] at ho
                          exact Except.noConfusion ho
                        | list l0 =>
                          rw [processOne_obj_badprops k vfs parent sep
                            hf0 hlt hc hps rfl] at ho
                          exact Except.noConfusion ho
          rw [← h2, mutFreeProps_cons k v rest, Bool.and_eq_true]
          constructor
          · intro he
            simp only [List.cons.injEq, Prod.mk.injEq, true_and] at he
            exact ⟨hone.mp he.1, hrestIff.mp he.2⟩
          · intro hmf
            rw [hone.mpr hmf.1, hrestIff.mpr hmf.2]

/-- The post-state of `flatten_schema` equals its input exactly when no
branch wrote. -/
theorem flatten_schemaS_frame (d : JValue) (parent : List String) (sep : String)
    (items : List (String × JValue)) (d2 : JValue)
    (h : flatten_schemaS d parent sep = .ok (items, d2)) :
    (d2 = d ↔ mutFreeSchema d = true) := by
  rw [flatten_schemaS.eq_def] at h
  cases d with
  | obj dfs =>
    cases hlp : lookupObj dfs "properties" with
    | none =>
      simp only [pyIndexStr, hlp] at h
      exact Except.noConfusion h
    | some w =>
      cases w with
      | obj pl =>
        simp only [pyIndexStr, hlp] at h
        cases hpp : processProps pl parent sep with
        | error e =>
          rw [hpp] at h
          exact Except.noConfusion h
        | ok ipr =>
          obtain ⟨items0, post⟩ := ipr
          rw [hpp] at h
          simp only at h
          cases hfin : finalizeItems items0 with
          | error e =>
            rw [hfin] at h
            exact Except.noConfusion h
          | ok res =>
            rw [hfin] at h
            simp only [Except.ok.injEq, Prod.mk.injEq] at h
            obtain ⟨h1, h2⟩ := h
            have hframe := processProps_frame (sizeOf pl) pl parent sep items0 post
              (le_refl _) hpp
            have hms : mutFreeSchema (.obj dfs) = mutFreeProps pl := by
              simp only [mutFreeSchema, hlp]
            rw [hms]
            constructor
            · intro he
              rw [← h2] at he
              simp only [JValue.obj.injEq] at he
              have hl2 := lookup_of_updateAssoc_eq he
              rw [hlp] at hl2
              injection hl2 with hq
              injection hq with hq2
              exact hframe.mp hq2.symm
            · intro hmf
              rw [← h2, hframe.mpr hmf, updateAssoc_self dfs "properties" (.obj pl) hlp]
      | null => simp only [pyIndexStr, hlp] at h; exact Except.noConfusion h
      | bool b0 => simp only [pyIndexStr, hlp] at h; exact Except.noConfusion h
      | num n0 => simp only [pyIndexStr, hlp] at h; exact Except.noConfusion h
      | str s0 => simp only [pyIndexStr, hlp] at h; exact Except.noConfusion h
      | list l0 => simp only [pyIndexStr, hlp] at h; exact Except.noConfusion h
  | null => simp only [pyIndexStr] at h; exact Except.noConfusion h
  | bool b0 => simp only [pyIndexStr] at h; exact Except.noConfusion h
  | num n0 => simp only [pyIndexStr] at h; exact Except.noConfusion h
  | str s0 => simp only [pyIndexStr] at h; exact Except.noConfusion h
  | list l0 => simp only [pyIndexStr] at h; exact Except.noConfusion h

/-- C10: `flatten_schema` is not pure with respect to its input.  (1) When
it returns, the post-state of the input schema equals the input exactly
when no property (recursively) took the writing branch, i.e. had no
explicit `"type"` and a first alternative whose own `"type"` is the string
`"string"` or `"array"` — in every other branch the schema comes back
unmodified.  (2)/(3) In the writing branch the first alternative's
descriptor has its `"type"` overwritten in place with
`["null", "string"]` (resp. `["null", "array"]`), and this mutated
descriptor is what the loop stores and leaves inside the caller's
schema. -/
theorem flatten_schema_mutation :
    (∀ (d : JValue) (parent : List String) (sep : String)
        (items : List (String × JValue)) (d2 : JValue),
      flatten_schemaS d parent sep = .ok (items, d2) →
      (d2 = d ↔ mutFreeSchema d = true))
    ∧ (∀ (k k0 : String) (pfs : List (String × JValue)) (es : List JValue)
        (vrest : List (String × JValue)) (parent : List String) (sep : String),
      lookupObj ((k0, JValue.list (.obj pfs :: es)) :: vrest) "type" = none →
      lookupObj pfs "type" = some (.str "string") →
      processOne k (.obj ((k0, JValue.list (.obj pfs :: es)) :: vrest)) parent sep
        = .ok ([(flatten_key k parent sep,
                 .obj (updateAssoc pfs "type" (.list [.str "null", .str "string"])))],
               .obj ((k0, JValue.list (.obj (updateAssoc pfs "type"
                 (.list [.str "null", .str "string"])) :: es)) :: vrest)))
    ∧ (∀ (k k0 : String) (pfs : List (String × JValue)) (es : List JValue)
        (vrest : List (String × JValue)) (parent : List String) (sep : String),
      lookupObj ((k0, JValue.list (.obj pfs :: es)) :: vrest) "type" = none →
      lookupObj pfs "type" = some (.str "array") →
      processOne k (.obj ((k0, JValue.list (.obj pfs :: es)) :: vrest)) parent sep
        = .ok ([(flatten_key k parent sep,
                 .obj (updateAssoc pfs "type" (.list [.str "null", .str "array"])))],
               .obj ((k0, JValue.list (.obj (updateAssoc pfs "type"
                 (.list [.str "null", .str "array"])) :: es)) :: vrest))) := by
  refine ⟨flatten_schemaS_frame, ?_, ?_⟩
  · intro k k0 pfs es vrest parent sep hlt hlt2
    rw [processOne_anyof k ((k0, JValue.list (.obj pfs :: es)) :: vrest)
      parent sep rfl hlt]
    rw [processAnyOf.eq_def]
    simp [hlt2, isStrEq]
  · intro k k0 pfs es vrest parent sep hlt hlt2
    rw [processOne_anyof k ((k0, JValue.list (.obj pfs :: es)) :: vrest)
      parent sep rfl hlt]
    rw [processAnyOf.eq_def]
    simp [hlt2, isStrEq]

theorem flatten_schema_mutation_witness :
    flatten_schemaS
        (.obj [("properties", .obj
          [("a", .obj [("anyOf", .list [.obj [("type", .str "string")]])])])]) [] "__"
      = .ok ([("a", .obj [("type", .list [.str "null", .str "string"])])],
             .obj [("properties", .obj
               [("a", .obj [("anyOf", .list
                 [.obj [("type", .list [.str "null", .str "string"])]])])])])
    ∧ JValue.obj [("properties", .obj
        [("a", .obj [("anyOf", .list
          [.obj [("type", .list [.str "null", .str "string"])]])])])]
      ≠ .obj [("properties", .obj
          [("a", .obj [("anyOf", .list [.obj [("type", .str "string")]])])])] := by
  have h1 : processOne "a"
      (.obj [("anyOf", .list [.obj [("type", .str "string")]])]) [] "__"
      = .ok ([("a", .obj [("type", .list [.str "null", .str "string"])])],
             .obj [("anyOf", .list
               [.obj [("type", .list [.str "null", .str "string"])]])]) := by
    rw [processOne_anyof "a" [("anyOf", .list [.obj [("type", .str "string")]])]
      [] "__" rfl rfl]
    rfl
  have hpp := processProps_cons_ok h1 (processProps_nil [] "__")
  have hS : flatten_schemaS
      (.obj [("properties", .obj
        [("a", .obj [("anyOf", .list [.obj [("type", .str "string")]])])])]) [] "__"
      = .ok ([("a", .obj [("type", .list [.str "null", .str "string"])])],
             .obj [("properties", .obj
               [("a", .obj [("anyOf", .list
                 [.obj [("type", .list [.str "null", .str "string"])]])])])]) := by
    rw [flatten_schemaS_ok
      [("properties", .obj
        [("a", .obj [("anyOf", .list [.obj [("type", .str "string")]])])])]
      [] "__" rfl hpp rfl]
    rfl
  refine ⟨hS, fun he => ?_⟩
  have hm := (flatten_schema_mutation.1 _ [] "__" _ _ hS).mp he
  have e2 : mutFreeOne
      (.obj [("anyOf", .list [.obj [("type", .str "string")]])]) = false := by
    rw [mutFreeOne.eq_def]
    simp [lookupObj, mutFreeAnyDispatch, isStrEq]
  have hm2 : mutFreeSchema
      (.obj [("properties", .obj
        [("a", .obj [("anyOf", .list [.obj [("type", .str "string")]])])])]) = false := by
    have e1 : mutFreeSchema
        (.obj [("properties", .obj
          [("a", .obj [("anyOf", .list [.obj [("type", .str "string")]])])])])
        = mutFreeProps
            [("a", .obj [("anyOf", .list [.obj [("type", .str "string")]])])] := by
      simp [mutFreeSchema, lookupObj]
    rw [e1, mutFreeProps_cons, e2]
    rfl
  rw [hm] at hm2
  exact Bool.noConfusion hm2
